import Mathlib

/-
Verification development for the district2-dashboard ingestion pipeline
(backend/db.py, backend/services/complaints.py, backend/services/hpd.py,
backend/services/events.py, backend/scheduler.py, backend/app.py).

The Python code is shallowly embedded: SQLite rows become association lists
of column name to value, the INSERT ... ON CONFLICT DO UPDATE batch of
upsert_many becomes a fold over those rows, service-level normalisation
loops become filterMap constructions, and the HTTP / failure structure is
made explicit with Except.
-/

namespace D2

/-- SQL storage values: NULL, TEXT, INTEGER and REAL (reals as rationals). -/
inductive SQLVal where
  | null
  | text (s : String)
  | int (n : Int)
  | real (q : ℚ)
deriving DecidableEq

/-- A table row or a decoded JSON record: an association list from column
name to value, as produced by the Python dict rows. -/
abbrev Row := List (String × SQLVal)

/-- Value of a column in a row (first binding wins, as in a Python dict that
never holds duplicate keys). none models both an absent key and SQL NULL
reads of a missing column. -/
def getCol (r : Row) (c : String) : Option SQLVal :=
  match r with
  | [] => none
  | (n, v) :: rest => if n = c then some v else getCol rest c

/-- Python truthiness of the JSON/SQL values the services test with
an if-not guard: empty string, 0 and None are falsy. -/
def truthy : SQLVal → Bool
  | SQLVal.null => false
  | SQLVal.text s => s ≠ ""
  | SQLVal.int n => n ≠ 0
  | SQLVal.real q => q ≠ 0

/-- Counterpart of Python r.get(key, default) on a decoded JSON record. -/
def rawGet (r : Row) (c : String) (d : SQLVal) : SQLVal :=
  (getCol r c).getD d

/-- Column names of a row, in order. -/
def colNames (r : Row) : List String := r.map Prod.fst

/-- Serialisation of one row against the column list taken from the first
row of the batch: the Python expression tuple of r at c for c in cols.
A missing column is a KeyError, modelled as none. -/
def serializeRow (r : Row) : List String → Option Row
  | [] => some []
  | c :: cs =>
    match getCol r c, serializeRow r cs with
    | some v, some rest => some ((c, v) :: rest)
    | _, _ => none

/-- Serialisation of the whole batch; any KeyError aborts the batch before
the commit, so nothing is written (the connection is closed uncommitted). -/
def serializeRows (cols : List String) : List Row → Option (List Row)
  | [] => some []
  | r :: rs =>
    match serializeRow r cols, serializeRows cols rs with
    | some a, some b => some (a :: b)
    | _, _ => none

/-- Effect of the DO UPDATE SET assignment list on one stored column: a
column of the insert list other than the conflict column receives the
excluded (new) value, every other column keeps its stored value. -/
def writeColEntry (cols : List String) (cc : String) (x : Row) (p : String × SQLVal) :
    String × SQLVal :=
  if p.1 ∈ cols ∧ p.1 ≠ cc then
    match getCol x p.1 with
    | some v => (p.1, v)
    | none => p
  else p

/-- The DO UPDATE SET part of upsert_many: every column of the insert list
except the conflict column is overwritten with the excluded (new) value.
Columns of the stored row outside the insert list are left alone. -/
def writeCols (cols : List String) (cc : String) (x : Row) (old : Row) : Row :=
  old.map (writeColEntry cols cc x)

/-- Stored form of a freshly inserted row: the serialised columns plus the
table defaults (such as fetched_at) for columns the INSERT did not name. -/
def insertRow (defaults : Row) (sr : Row) : Row :=
  sr ++ defaults.filter (fun p => ¬ (colNames sr).contains p.1)

/-- One INSERT ... ON CONFLICT(cc) DO UPDATE SET step of the executemany.
A non-NULL conflict-key value that is already present updates the matching
stored rows in place; otherwise the row is appended. SQLite never matches
NULL against NULL in the unique index, so a NULL key always inserts. -/
def upsertOne (cc : String) (cols : List String) (defaults : Row)
    (store : List Row) (sr : Row) : List Row :=
  let kv := (getCol sr cc).getD SQLVal.null
  if kv ≠ SQLVal.null ∧ store.any (fun t => getCol t cc = some kv) then
    store.map (fun t => if getCol t cc = some kv then writeCols cols cc sr t else t)
  else
    store ++ [insertRow defaults sr]

/-- Embedding of db.upsert_many: an empty batch returns 0 untouched; else
the column list is read off the first row, the batch is serialised (a row
missing a column raises KeyError, which propagates and rolls the batch
back), every row is upserted in order and the row count is returned. -/
def upsert_many (cc : String) (defaults : Row) (store : List Row)
    (rows : List Row) : Except String (Nat × List Row) :=
  match rows with
  | [] => Except.ok (0, store)
  | r0 :: _ =>
    let cols := colNames r0
    match serializeRows cols rows with
    | none => Except.error "KeyError"
    | some srows => Except.ok (rows.length, srows.foldl (upsertOne cc cols defaults) store)

/-- Connection-level actions performed by upsert_many, in order: on an
empty batch the function returns before opening the database, so no
connect, execute or commit happens at all. -/
def upsert_many_db_actions (rows : List Row) : List String :=
  if rows.isEmpty then [] else ["connect", "executemany", "commit", "close"]

/-- Number of stored rows whose conflict-key column holds the value v. -/
def countKey (cc : String) (store : List Row) (v : SQLVal) : Nat :=
  store.countP (fun t => getCol t cc = some v)

/-- The last row of a batch carrying a given conflict-key value: within
one executemany the later occurrence wins, so this is the row whose
non-key values survive. -/
def lastKeyed (cc : String) (v : SQLVal) (xs : List Row) : Option Row :=
  (xs.filter (fun r => getCol r cc = some v)).getLast?

/-- Invariant relating an intermediate store to the final store while a
batch replays: a row whose key is hit by the remaining batch differs from
its final form only by the pending write of the last matching batch row,
and every other row is already final. -/
def upsertRel (cc : String) (cols : List String) (xs : List Row) (w t : Row) : Prop :=
  (∀ v, getCol w cc = some v →
    ((∃ x ∈ xs, getCol x cc = some v) →
      ∃ lx, lastKeyed cc v xs = some lx ∧ writeCols cols cc lx w = t) ∧
    ((¬ ∃ x ∈ xs, getCol x cc = some v) → w = t)) ∧
  (getCol w cc = none → w = t)

/-- Accumulating decimal digit reader; fails on a non-digit character. -/
def digitsToNatAux (acc : ℕ) : List Char → Option ℕ
  | [] => some acc
  | c :: cs => if c.isDigit then digitsToNatAux (acc * 10 + (c.toNat - 48)) cs else none

/-- Decimal parser for the plain signed decimal strings the feeds emit
(the coordinate fields), modelling the Python float conversion used by
the services; anything else fails like a ValueError. -/
def parseRat (s : String) : Option ℚ :=
  let step : ℚ × List Char → Option ℚ := fun sc =>
    let intPart := sc.2.takeWhile (fun c => c ≠ '.')
    let rest := sc.2.dropWhile (fun c => c ≠ '.')
    match rest with
    | [] =>
      if intPart.isEmpty then none
      else (digitsToNatAux 0 intPart).map (fun n => sc.1 * n)
    | _ :: frac =>
      if intPart.isEmpty ∧ frac.isEmpty then none
      else
        match digitsToNatAux 0 intPart, digitsToNatAux 0 frac with
        | some ip, some fp => some (sc.1 * ((ip : ℚ) + (fp : ℚ) / (10 : ℚ) ^ frac.length))
        | _, _ => none
  match s.data with
  | '-' :: cs => step ((-1 : ℚ), cs)
  | '+' :: cs => step ((1 : ℚ), cs)
  | cs => step ((1 : ℚ), cs)

/-- Embedding of the services module-level float helper: None stays None,
numbers convert, strings parse, and a parse failure is swallowed to None. -/
def pyFloat : Option SQLVal → SQLVal
  | none => SQLVal.null
  | some SQLVal.null => SQLVal.null
  | some (SQLVal.int n) => SQLVal.real (n : ℚ)
  | some (SQLVal.real q) => SQLVal.real q
  | some (SQLVal.text s) =>
    match parseRat s with
    | some q => SQLVal.real q
    | none => SQLVal.null

/-- Quoted JSON rendering of a string (escaping of rare characters elided). -/
def jsonStr (s : String) : String := "\"" ++ s ++ "\""

/-- JSON rendering of one value. -/
def jsonVal : SQLVal → String
  | SQLVal.null => "null"
  | SQLVal.text s => jsonStr s
  | SQLVal.int n => toString n
  | SQLVal.real q => toString q

/-- Simplified counterpart of json.dumps on a decoded record, used to fill
the raw_data audit column. -/
def json_dumps (r : Row) : String :=
  "\x7b" ++ String.intercalate ", " (r.map (fun p => jsonStr p.1 ++ ": " ++ jsonVal p.2)) ++ "\x7d"

/-- Outcome of one outbound HTTP request: a raised transport error, or a
response carrying a status code and a decoded JSON body (none when the
payload does not parse as JSON). -/
inductive HttpResult where
  | failure (e : String)
  | response (status : ℕ) (body : Option (List Row))

/-- Embedding of httpx raise_for_status: any non-2xx response raises. -/
def raise_for_status (status : ℕ) : Except String Unit :=
  if 200 ≤ status ∧ status < 300 then Except.ok () else Except.error "HTTPStatusError"

/-- The natural-key guard of the 311 loop: records whose unique_key is
missing or falsy are skipped with continue. -/
def keyed311 (r : Row) : Bool := truthy (rawGet r "unique_key" (SQLVal.text ""))

/-- The complaints_311 row built from one raw 311 record, field for field
as in services/complaints.py fetch_311_complaints. -/
def row_311 (r : Row) : Row :=
  [("unique_key", rawGet r "unique_key" (SQLVal.text "")),
   ("created_date", rawGet r "created_date" (SQLVal.text "")),
   ("closed_date", rawGet r "closed_date" SQLVal.null),
   ("agency", rawGet r "agency" SQLVal.null),
   ("complaint_type", rawGet r "complaint_type" SQLVal.null),
   ("descriptor", rawGet r "descriptor" SQLVal.null),
   ("location_type", rawGet r "location_type" SQLVal.null),
   ("incident_zip", rawGet r "incident_zip" SQLVal.null),
   ("address", rawGet r "incident_address" SQLVal.null),
   ("city", rawGet r "city" SQLVal.null),
   ("status", rawGet r "status" SQLVal.null),
   ("resolution_description", rawGet r "resolution_description" SQLVal.null),
   ("latitude", pyFloat (getCol r "latitude")),
   ("longitude", pyFloat (getCol r "longitude")),
   ("raw_data", SQLVal.text (json_dumps r))]

/-- The normalisation loop of fetch_311_complaints: keyless records are
dropped, the rest are mapped to complaints_311 rows in order. -/
def rows_311 (data : List Row) : List Row :=
  data.filterMap (fun r => if keyed311 r then some (row_311 r) else none)

/-- Embedding of fetch_311_complaints: the HTTP fetch (no try/except in
the source, so transport errors, non-2xx statuses and malformed JSON all
propagate as exceptions), then normalisation, then the upsert; returns the
upserted row count on success. -/
def fetch_311_complaints (resp : HttpResult) (defaults : Row)
    (store : List Row) : Except String (Nat × List Row) :=
  match resp with
  | HttpResult.failure e => Except.error e
  | HttpResult.response status body =>
    match raise_for_status status with
    | Except.error e => Except.error e
    | Except.ok _ =>
      match body with
      | none => Except.error "JSONDecodeError"
      | some data => upsert_many "unique_key" defaults store (rows_311 data)

/-- Lexicographic order on character lists, the order SQLite applies to
TEXT values (byte order of the UTF-8 encoding). -/
def charListLt : List Char → List Char → Bool
  | [], [] => false
  | [], _ :: _ => true
  | _ :: _, [] => false
  | a :: as, b :: bs => if a < b then true else if b < a then false else charListLt as bs

/-- Lexicographic order on strings. -/
def strLt (a b : String) : Bool := charListLt a.data b.data

/-- SQLite comparison of a stored value against a TEXT parameter with the
greater-than operator: NULL never matches, numbers sort before all text,
and text compares lexicographically. -/
def sqlTextGt (v : SQLVal) (since : String) : Bool :=
  match v with
  | SQLVal.text s => strLt since s
  | _ => false

/-- Distinct values of a list in first-occurrence order, modelling the
grouping keys of a GROUP BY over the scanned rows. -/
def distinctVals {κ : Type} [DecidableEq κ] (l : List κ) : List κ :=
  l.foldl (fun acc v => if v ∈ acc then acc else acc ++ [v]) []

/-- GROUP BY key with COUNT per group. -/
def groupCounts {κ : Type} [DecidableEq κ] (key : Row → κ) (rows : List Row) : List (κ × ℕ) :=
  (distinctVals (rows.map key)).map (fun v => (v, rows.countP (fun r => key r = v)))

/-- Stable insertion for an ORDER BY given as a goes-before test. -/
def insSortInsert {α : Type} (before : α → α → Bool) (x : α) : List α → List α
  | [] => [x]
  | y :: ys => if before x y then x :: y :: ys else y :: insSortInsert before x ys

/-- Stable insertion sort for an ORDER BY given as a goes-before test. -/
def insSort {α : Type} (before : α → α → Bool) : List α → List α
  | [] => []
  | x :: xs => insSortInsert before x (insSort before xs)

/-- Embedding of get_911_type_breakdown: calls_911 rows with incident_date
beyond the since bound (computed upstream from the current wall clock),
grouped by call_type, ordered by count descending, first twenty groups.
There is no fallback window when the filter comes back empty. -/
def get_911_type_breakdown (since : String) (calls : List Row) : List (SQLVal × ℕ) :=
  let inWin := calls.filter (fun r => sqlTextGt ((getCol r "incident_date").getD SQLVal.null) since)
  (insSort (fun p q => q.2 < p.2) (groupCounts (fun r => (getCol r "call_type").getD SQLVal.null) inWin)).take 20

/-- Check that ten characters spell an ISO date YYYY-MM-DD. -/
def validDate10 : List Char → Bool
  | [a, b, c, d, e, f, g, h, i, j] =>
    a.isDigit && b.isDigit && c.isDigit && d.isDigit && e = '-' &&
    f.isDigit && g.isDigit && h = '-' && i.isDigit && j.isDigit
  | _ => false

/-- SQLite date() applied to a stored value: for the ISO timestamp text the
feeds emit it truncates to the date part, otherwise it yields NULL. -/
def sqlDate (v : SQLVal) : Option String :=
  match v with
  | SQLVal.text s => if validDate10 (s.data.take 10) then some (String.mk (s.data.take 10)) else none
  | _ => none

/-- Leap-year test of the proleptic Gregorian calendar. -/
def isLeap (y : ℕ) : Bool := (y % 4 = 0 ∧ y % 100 ≠ 0) ∨ y % 400 = 0

/-- Days elapsed before the first of month m in a non-leap year. -/
def cumDays (m : ℕ) : ℕ :=
  [0, 31, 59, 90, 120, 151, 181, 212, 243, 273, 304, 334].getD (m - 1) 0

/-- Linear day number of a calendar date, for date comparisons and offsets. -/
def dayNumber (y m d : ℕ) : ℕ :=
  365 * y + y / 4 - y / 100 + y / 400 + cumDays m + (if 2 < m ∧ isLeap y then 1 else 0) + d

/-- Day number of the date prefix of an ISO date string, when well formed. -/
def dateNum (s : String) : Option ℕ :=
  match s.data.take 10 with
  | [a, b, c, d, _, f, g, _, i, j] =>
    if validDate10 (s.data.take 10) then
      some (dayNumber
        ((a.toNat - 48) * 1000 + (b.toNat - 48) * 100 + (c.toNat - 48) * 10 + (d.toNat - 48))
        ((f.toNat - 48) * 10 + (g.toNat - 48))
        ((i.toNat - 48) * 10 + (j.toNat - 48)))
    else none
  | _ => none

/-- Embedding of get_311_trend: complaints_311 rows with created_date past
the since bound (and matching the optional complaint type), grouped by the
date part of created_date, ordered by date ascending. No fallback window
is applied when the filter comes back empty. -/
def get_311_trend (since : String) (ctype : Option String) (complaints : List Row) : List (Option String × ℕ) :=
  let base := complaints.filter (fun r =>
    sqlTextGt ((getCol r "created_date").getD SQLVal.null) since &&
    (match ctype with
     | none => true
     | some t => getCol r "complaint_type" = some (SQLVal.text t)))
  insSort (fun p q =>
      match p.1, q.1 with
      | none, _ => true
      | some _, none => false
      | some a, some b => strLt a b)
    (groupCounts (fun r => sqlDate ((getCol r "created_date").getD SQLVal.null)) base)

/-- Modelled from the spec: the variant of the 911 type breakdown the spec
describes, in which a request window that contains no data falls back to a
window of the same length anchored at the latest available record date
instead of the current wall clock, so results stay populated when the
upstream lags. The windowDays parameter is the period length in days. -/
def get_911_type_breakdown_spec (since : String) (windowDays : ℕ) (calls : List Row) : List (SQLVal × ℕ) :=
  let inWin := calls.filter (fun r => sqlTextGt ((getCol r "incident_date").getD SQLVal.null) since)
  let grouped : List Row → List (SQLVal × ℕ) := fun rows =>
    (insSort (fun p q => q.2 < p.2) (groupCounts (fun r => (getCol r "call_type").getD SQLVal.null) rows)).take 20
  if inWin.isEmpty then
    let days := calls.filterMap (fun r =>
      match (getCol r "incident_date").getD SQLVal.null with
      | SQLVal.text s => dateNum s
      | _ => none)
    match days.max? with
    | none => []
    | some latest =>
      grouped (calls.filter (fun r =>
        match (getCol r "incident_date").getD SQLVal.null with
        | SQLVal.text s =>
          match dateNum s with
          | some n => decide (latest - windowDays < n ∧ n ≤ latest)
          | none => false
        | _ => false))
  else grouped inWin

/-- Generic association-list lookup, first binding wins. -/
def alistGet {κ β : Type} [DecidableEq κ] : List (κ × β) → κ → Option β
  | [], _ => none
  | p :: rest, k => if p.1 = k then some p.2 else alistGet rest k

/-- A row of the aggregations table; id and extra_data are omitted as no
code path under proof reads them. -/
structure AggRow where
  data_source : String
  period_type : String
  period_start : String
  period_end : String
  category : SQLVal
  count : Int
  computed_at : String
deriving DecidableEq

/-- The ON CONFLICT target of the aggregations upsert: the UNIQUE index on
(data_source, period_type, period_start, category). As in SQLite, a NULL
category never matches the index, so such rows always insert. -/
def aggConflict (r t : AggRow) : Bool :=
  r.category ≠ SQLVal.null && r.data_source = t.data_source &&
  r.period_type = t.period_type && r.period_start = t.period_start &&
  r.category = t.category

/-- The DO UPDATE SET part of the aggregations upsert: count and
computed_at are overwritten, every key field and period_end kept. -/
def aggUpdate (now : String) (r t : AggRow) : AggRow :=
  { t with count := r.count, computed_at := now }

/-- One INSERT ... ON CONFLICT DO UPDATE SET count = excluded.count,
computed_at = now step of compute_aggregations: a conflicting bucket gets
its count and computed_at overwritten (period_end is left alone),
otherwise the bucket is inserted with computed_at defaulted to now. -/
def agg_upsert (now : String) (store : List AggRow) (r : AggRow) : List AggRow :=
  if store.any (fun t => aggConflict r t) then
    store.map (fun t => if aggConflict r t then aggUpdate now r t else t)
  else store ++ [{ r with computed_at := now }]

/-- The per-day GROUP BY complaint_type COUNT(*) query over complaints_311
restricted to one date, feeding compute_aggregations. -/
def results_311 (complaints : List Row) (day : String) : List (SQLVal × Int) :=
  let todays := complaints.filter (fun r => sqlDate ((getCol r "created_date").getD SQLVal.null) = some day)
  (groupCounts (fun r => (getCol r "complaint_type").getD SQLVal.null) todays).map
    (fun p => (p.1, (p.2 : Int)))

/-- The aggregation rows built for one day of 311 data in
compute_aggregations, one per category of the grouped results. -/
def agg_rows_311 (day day_next : String) (results : List (SQLVal × Int)) : List AggRow :=
  results.map (fun p => AggRow.mk "311" "daily" day day_next p.1 p.2 "")

/-- One day of compute_aggregations: group that day's complaints by type
and upsert one daily bucket per category (an empty result list writes
nothing, matching the if agg_rows guard). -/
def compute_aggregations_day (now day day_next : String) (complaints : List Row)
    (aggs : List AggRow) : List AggRow :=
  (agg_rows_311 day day_next (results_311 complaints day)).foldl (agg_upsert now) aggs

/-- A stored aggregation row carries the given logical bucket tuple. -/
def aggMatches (ds pt ps : String) (cat : SQLVal) (t : AggRow) : Prop :=
  t.data_source = ds ∧ t.period_type = pt ∧ t.period_start = ps ∧ t.category = cat

instance (ds pt ps : String) (cat : SQLVal) (t : AggRow) : Decidable (aggMatches ds pt ps cat t) :=
  inferInstanceAs (Decidable (_ ∧ _ ∧ _ ∧ _))

/-- Number of aggregation rows carrying one logical bucket tuple. -/
def countAggKey (aggs : List AggRow) (ds pt ps : String) (cat : SQLVal) : ℕ :=
  aggs.countP (fun t => decide (aggMatches ds pt ps cat t))

/-- Floor of a rational as an integer, by flooring division of the
numerator by the positive denominator. -/
def ratFloor (x : ℚ) : ℤ := x.num.fdiv x.den

/-- Round half to even at integer precision, as Python round does: exact
halves go to the even neighbour, everything else to the nearest integer. -/
def roundHalfEven (x : ℚ) : ℤ :=
  if x - (ratFloor x : ℚ) = 1 / 2 then
    (if ratFloor x % 2 = 0 then ratFloor x else ratFloor x + 1)
  else ratFloor (x + 1 / 2)

/-- Python round(x, 1): round half to even at one decimal place. -/
def pyRound1 (x : ℚ) : ℚ := (roundHalfEven (x * 10) : ℚ) / 10

/-- The pct_change computation of get_complaint_summary: the rounded
relative change when the previous window count is positive, else 0. -/
def get_complaint_summary_pct (current prev : ℤ) : ℚ :=
  if 0 < prev then pyRound1 (((current : ℚ) - (prev : ℚ)) / (prev : ℚ) * 100) else 0

/-- The pct_change computation of get_violation_summary, same formula and
same previous-window-zero policy as the 311 summary. -/
def get_violation_summary_pct (current prev : ℤ) : ℚ :=
  if 0 < prev then pyRound1 (((current : ℚ) - (prev : ℚ)) / (prev : ℚ) * 100) else 0

/-- One HPD registration contact as read from the contacts dataset, fields
already defaulted the way the loop reads them: type, firstname and
lastname default to the empty string, corporationname to absent. -/
structure Contact where
  ctype : String
  firstname : String
  lastname : String
  corporationname : Option String
deriving DecidableEq

/-- The full_name expression: first and last joined, stripped, and an
empty result replaced by None through the Python or-None idiom. -/
def full_name (c : Contact) : Option String :=
  let s := (c.firstname ++ " " ++ c.lastname).trim
  if s = "" then none else some s

/-- The corp_name expression: the corporationname field with falsy values
(absent or empty) collapsed to None. -/
def corp_name (c : Contact) : Option String :=
  match c.corporationname with
  | some s => if s = "" then none else some s
  | none => none

/-- The result dict of _fetch_contacts_for_registration. -/
structure ContactResult where
  owner_name : Option String
  owner_type : Option String
  head_officer : Option String
  officer : Option String
  managing_agent : Option String
  corporation_name : Option String
deriving DecidableEq

/-- The all-None result dict the lookup starts from and returns on a
missing registration id or a swallowed lookup failure. -/
def emptyContactResult : ContactResult :=
  ContactResult.mk none none none none none none

/-- Python falsiness of an optional string (None or empty). -/
def pyFalsyStr (o : Option String) : Bool := o = none || o = some ""

/-- One iteration of the contact loop: a CorporateOwner always overwrites
the owner fields, preferring the corporate name over the individual full
name; an IndividualOwner only fills the owner fields while they are still
unset; officer and agent types fill their own fields. -/
def contactStep (res : ContactResult) (c : Contact) : ContactResult :=
  if c.ctype = "CorporateOwner" then
    { res with owner_name := some (((corp_name c).or (full_name c)).getD "Unknown"),
               owner_type := some "CorporateOwner",
               corporation_name := corp_name c }
  else if c.ctype = "IndividualOwner" then
    (if pyFalsyStr res.owner_name then
      { res with owner_name := some ((full_name c).getD "Unknown"),
                 owner_type := some "IndividualOwner" }
     else res)
  else if c.ctype = "HeadOfficer" then { res with head_officer := full_name c }
  else if c.ctype = "Officer" then { res with officer := full_name c }
  else if c.ctype = "Agent" then { res with managing_agent := full_name c }
  else res

/-- The contact resolution loop over the candidate contacts in response
order. -/
def resolve_contacts (contacts : List Contact) : ContactResult :=
  contacts.foldl contactStep emptyContactResult

/-- The owner name the loop derives from a corporate-owner contact:
the corporate name when present, else the individual full name, else the
Unknown placeholder. -/
def corp_owner_name (c : Contact) : String :=
  ((corp_name c).or (full_name c)).getD "Unknown"

/-- The owner name the loop derives from an individual-owner contact. -/
def indiv_owner_name (c : Contact) : String :=
  (full_name c).getD "Unknown"

/-- The last corporate-owner candidate of a response, the one whose values
survive the loop because corporate owners overwrite unconditionally. -/
def lastCorporate (l : List Contact) : Option Contact :=
  (l.filter (fun c => c.ctype = "CorporateOwner")).getLast?

/-- The first individual-owner candidate of a response, the one that fills
the owner fields when no corporate owner ever does. -/
def firstIndividual (l : List Contact) : Option Contact :=
  (l.filter (fun c => c.ctype = "IndividualOwner")).head?

/-- Embedding of _fetch_contacts_for_registration: a falsy registration id
returns the empty result without a lookup; a lookup failure is swallowed
into the empty result; otherwise the candidate contacts are resolved. The
oracle stands for the HTTP call against the contacts dataset. -/
def _fetch_contacts_for_registration (oracle : SQLVal → Except String (List Contact))
    (registration_id : SQLVal) : ContactResult :=
  if truthy registration_id then
    match oracle registration_id with
    | Except.error _ => emptyContactResult
    | Except.ok data => resolve_contacts data
  else emptyContactResult

/-- Rational payload of a model value, for the coordinate pair. -/
def asRat : SQLVal → Option ℚ
  | SQLVal.real q => some q
  | _ => none

/-- Embedding of _fetch_building_coords: a falsy building id or a
swallowed failure or an empty response yields no coordinates; otherwise
the first record's parsed latitude and longitude. -/
def _fetch_building_coords (oracle : SQLVal → Except String (List Row))
    (building_id : SQLVal) : Option ℚ × Option ℚ :=
  if truthy building_id then
    match oracle building_id with
    | Except.error _ => (none, none)
    | Except.ok [] => (none, none)
    | Except.ok (d :: _) => (asRat (pyFloat (getCol d "latitude")), asRat (pyFloat (getCol d "longitude")))
  else (none, none)

/-- The distinct truthy registration ids of a violations batch. The
Python set is unordered; first-occurrence order is the model's choice of
enumeration and no proved statement depends on it. -/
def regKeys (data : List Row) : List SQLVal :=
  distinctVals (data.filterMap (fun r =>
    let v := (getCol r "registrationid").getD SQLVal.null
    if truthy v then some v else none))

/-- The distinct truthy building ids of a violations batch. -/
def bldKeys (data : List Row) : List SQLVal :=
  distinctVals (data.filterMap (fun r =>
    let v := (getCol r "buildingid").getD SQLVal.null
    if truthy v then some v else none))

/-- The registration ids actually looked up in one run: the distinct keys
capped at 200, one lookup each. -/
def hpd_contact_calls (data : List Row) : List SQLVal := (regKeys data).take 200

/-- The building ids actually looked up in one run, capped at 200. -/
def hpd_coord_calls (data : List Row) : List SQLVal := (bldKeys data).take 200

/-- The run-local contact cache: one entry per issued lookup. -/
def contact_cache (oracle : SQLVal → Except String (List Contact)) (data : List Row) :
    List (SQLVal × ContactResult) :=
  (hpd_contact_calls data).map (fun k => (k, _fetch_contacts_for_registration oracle k))

/-- The run-local coordinate cache: one entry per issued lookup. -/
def coord_cache (oracle : SQLVal → Except String (List Row)) (data : List Row) :
    List (SQLVal × (Option ℚ × Option ℚ)) :=
  (hpd_coord_calls data).map (fun k => (k, _fetch_building_coords oracle k))

/-- The natural-key guard of the violations loop. -/
def keyedHpd (r : Row) : Bool := truthy (rawGet r "violationid" (SQLVal.text ""))

/-- Optional string to stored value (None becomes NULL). -/
def optStrVal : Option String → SQLVal
  | none => SQLVal.null
  | some s => SQLVal.text s

/-- Optional rational to stored value (None becomes NULL). -/
def optRatVal : Option ℚ → SQLVal
  | none => SQLVal.null
  | some q => SQLVal.real q

/-- The hpd_violations row built from one raw record and the two run-local
caches, field for field as in fetch_hpd_violations; a key missing from a
cache reads out as the empty dict, so every enrichment column is NULL. -/
def row_hpd (ccache : List (SQLVal × ContactResult))
    (kcache : List (SQLVal × (Option ℚ × Option ℚ))) (r : Row) : Row :=
  let reg_id := rawGet r "registrationid" (SQLVal.text "")
  let bld_id := rawGet r "buildingid" (SQLVal.text "")
  let contacts := (alistGet ccache reg_id).getD emptyContactResult
  let coords := (alistGet kcache bld_id).getD (none, none)
  [("violation_id", rawGet r "violationid" (SQLVal.text "")),
   ("building_id", bld_id),
   ("registration_id", reg_id),
   ("borough", rawGet r "boro" (SQLVal.text "")),
   ("house_number", rawGet r "housenumber" (SQLVal.text "")),
   ("street_name", rawGet r "streetname" (SQLVal.text "")),
   ("zip", rawGet r "zip" (SQLVal.text "")),
   ("apartment", rawGet r "apartment" SQLVal.null),
   ("story", rawGet r "story" SQLVal.null),
   ("block", rawGet r "block" SQLVal.null),
   ("lot", rawGet r "lot" SQLVal.null),
   ("class", rawGet r "class" (SQLVal.text "")),
   ("inspection_date", rawGet r "inspectiondate" SQLVal.null),
   ("approved_date", rawGet r "approveddate" SQLVal.null),
   ("nov_description", rawGet r "novdescription" SQLVal.null),
   ("nov_issued_date", rawGet r "novissueddate" SQLVal.null),
   ("current_status", rawGet r "currentstatus" SQLVal.null),
   ("current_status_date", rawGet r "currentstatusdate" SQLVal.null),
   ("latitude", optRatVal coords.1),
   ("longitude", optRatVal coords.2),
   ("owner_name", optStrVal contacts.owner_name),
   ("owner_type", optStrVal contacts.owner_type),
   ("head_officer", optStrVal contacts.head_officer),
   ("officer", optStrVal contacts.officer),
   ("managing_agent", optStrVal contacts.managing_agent),
   ("corporation_name", optStrVal contacts.corporation_name),
   ("raw_data", SQLVal.text (json_dumps r))]

/-- The normalisation loop of fetch_hpd_violations over a fetched batch:
builds both caches, drops keyless records, maps the rest. -/
def rows_hpd (oracleC : SQLVal → Except String (List Contact))
    (oracleB : SQLVal → Except String (List Row)) (data : List Row) : List Row :=
  let cc := contact_cache oracleC data
  let kc := coord_cache oracleB data
  data.filterMap (fun r => if keyedHpd r then some (row_hpd cc kc r) else none)

/-- Embedding of fetch_hpd_violations: unguarded HTTP fetch (errors
propagate), enrichment with capped memoised lookups, then the upsert. -/
def fetch_hpd_violations (resp : HttpResult)
    (oracleC : SQLVal → Except String (List Contact))
    (oracleB : SQLVal → Except String (List Row))
    (defaults : Row) (store : List Row) : Except String (Nat × List Row) :=
  match resp with
  | HttpResult.failure e => Except.error e
  | HttpResult.response status body =>
    match raise_for_status status with
    | Except.error e => Except.error e
    | Except.ok _ =>
      match body with
      | none => Except.error "JSONDecodeError"
      | some data => upsert_many "violation_id" defaults store (rows_hpd oracleC oracleB data)

/-- What the scheduler records for one job body run. -/
inductive SafeOutcome where
  | completedLog (result : ℕ)
  | failedLog (e : String)
deriving DecidableEq

/-- Embedding of scheduler _safe_run: a completed coroutine logs its
result, a raised exception is caught and logged; nothing propagates. -/
def _safe_run : Except String ℕ → SafeOutcome
  | Except.ok n => SafeOutcome.completedLog n
  | Except.error e => SafeOutcome.failedLog e

/-- A batch of named job-body outcomes as processed on one scheduling
tick, each wrapped in _safe_run. -/
def run_named_jobs (jobs : List (String × Except String ℕ)) : List (String × SafeOutcome) :=
  jobs.map (fun p => (p.1, _safe_run p.2))

/-- Embedding of job_fetch_hpd: two sequential _safe_run steps; the second
runs whatever the first did. -/
def job_fetch_hpd (r1 r2 : Except String ℕ) : List (String × SafeOutcome) :=
  [("HPD violations", _safe_run r1), ("HPD complaints", _safe_run r2)]

/-- The ten backfill steps of scheduler run_backfill, in source order. -/
def backfill_step_names : List String :=
  ["Backfill events", "Backfill 311", "Backfill 911", "Backfill HPD violations",
   "Backfill HPD complaints", "Backfill news", "Backfill hyperlocal news",
   "Backfill Notify NYC", "Backfill Notify NYC API", "Backfill legislation"]

/-- Embedding of run_backfill: every step wrapped in _safe_run and run in
order, whatever each step's outcome. -/
def run_backfill (outcome : String → Except String ℕ) : List (String × SafeOutcome) :=
  backfill_step_names.map (fun n => (n, _safe_run (outcome n)))

/-- The SCHEDULE interval table of config.py, in minutes. -/
def SCHEDULE : List (String × ℕ) :=
  [("fdny", 15), ("nypd", 30), ("311", 15), ("notify_nyc", 5), ("hyperlocal", 30),
   ("news", 30), ("dob", 360), ("hpd", 360), ("legistar", 360), ("aggregate", 1440)]

/-- Interval lookup into SCHEDULE. -/
def scheduleMin (k : String) : ℕ := (alistGet SCHEDULE k).getD 0

/-- The jobs registered by setup_scheduler with their intervals (the 911
job reuses the 311 interval, session cleanup is daily). -/
def setup_scheduler_jobs : List (String × ℕ) :=
  [("fdny", scheduleMin "fdny"), ("nypd", scheduleMin "nypd"),
   ("311_events", scheduleMin "311"), ("911_calls", scheduleMin "311"),
   ("notify_nyc", scheduleMin "notify_nyc"), ("dob", scheduleMin "dob"),
   ("news", scheduleMin "news"), ("hyperlocal", scheduleMin "hyperlocal"),
   ("hpd", scheduleMin "hpd"), ("legislation", scheduleMin "legistar"),
   ("session_cleanup", 1440)]

/-- Embedding of check_needs_backfill: true on an empty events table, and
also on a failed count query. -/
def check_needs_backfill (eventsCount : Except String ℕ) : Bool :=
  match eventsCount with
  | Except.ok n => n = 0
  | Except.error _ => true

/-- The ordered startup actions of the app lifespan. -/
inductive StartEvent where
  | initDb
  | checkStore
  | schedulerStart
  | spawnBackfillTask
deriving DecidableEq

/-- Embedding of the lifespan startup sequence of app.py: initialise the
database, read the events count, start the interval scheduler, and only
then, when the store was empty, spawn the backfill as a detached
background task (asyncio.create_task, never awaited before yield). -/
def lifespan_startup (eventsCount : Except String ℕ) : List StartEvent :=
  [StartEvent.initDb, StartEvent.checkStore, StartEvent.schedulerStart] ++
  (if check_needs_backfill eventsCount then [StartEvent.spawnBackfillTask] else [])

/-- Timing model of the startup concurrency: interval jobs fire first one
interval after the scheduler starts at time zero, in minutes. -/
def first_tick_time (job : String × ℕ) : ℕ := job.2

/-- Timing model of the detached backfill task: its steps run
sequentially from time zero, so it completes at the sum of its step
durations; nothing in the code gates the interval jobs on it. -/
def backfill_completion_time (stepDurations : List ℕ) : ℕ := stepDurations.sum

/-- The ordering property C9 asserts of the startup: the backfill pass
completes before the first steady-state tick of any registered job. -/
def backfill_completes_before_first_ticks (stepDurations : List ℕ) : Prop :=
  ∀ j ∈ setup_scheduler_jobs, backfill_completion_time stepDurations ≤ first_tick_time j

/-- C10: calling upsert_many with an empty rows list returns 0 and leaves
the store completely unchanged, for every table state and conflict column,
and performs no database action at all (no connect, insert, update or
commit). -/
theorem upsert_many_empty_noop (cc : String) (defaults : Row) (store : List Row) :
    upsert_many cc defaults store [] = Except.ok (0, store) ∧
    upsert_many_db_actions [] = [] :=
  ⟨rfl, rfl⟩

/-- C6: in both the 311 complaint summary and the HPD violation summary,
the period-over-period percentage change is the rounded relative change
when the previous window count is positive and 0 when it is zero; in
particular current 50 against previous 0 gives 0 and current 150 against
previous 100 gives 50.0. -/
theorem pct_change_policy :
    get_complaint_summary_pct 50 0 = 0 ∧
    get_violation_summary_pct 50 0 = 0 ∧
    get_complaint_summary_pct 150 100 = 50 ∧
    get_violation_summary_pct 150 100 = 50 ∧
    (∀ c p : ℤ, 0 < p →
      get_complaint_summary_pct c p = pyRound1 (((c : ℚ) - (p : ℚ)) / (p : ℚ) * 100) ∧
      get_violation_summary_pct c p = pyRound1 (((c : ℚ) - (p : ℚ)) / (p : ℚ) * 100)) ∧
    (∀ c : ℤ, get_complaint_summary_pct c 0 = 0 ∧ get_violation_summary_pct c 0 = 0) := by
  refine ⟨by simp [get_complaint_summary_pct], by simp [get_violation_summary_pct],
    by norm_num [get_complaint_summary_pct, pyRound1, roundHalfEven, ratFloor, Int.fdiv],
    by norm_num [get_violation_summary_pct, pyRound1, roundHalfEven, ratFloor, Int.fdiv],
    ?_, ?_⟩
  · intro c p hp
    constructor
    · simp [get_complaint_summary_pct, hp]
    · simp [get_violation_summary_pct, hp]
  · intro c
    constructor
    · simp [get_complaint_summary_pct]
    · simp [get_violation_summary_pct]

/-- Closed instance of the percentage-change policy at current 150 and
previous 100, with the positivity hypothesis discharged concretely. -/
theorem pct_change_policy_witness :
    get_complaint_summary_pct 150 100 = pyRound1 (((150 : ℚ) - (100 : ℚ)) / (100 : ℚ) * 100) :=
  (pct_change_policy.2.2.2.2.1 150 100 (by decide)).1

theorem colNames_row_311 (r : Row) :
    colNames (row_311 r) =
      ["unique_key", "created_date", "closed_date", "agency", "complaint_type",
       "descriptor", "location_type", "incident_zip", "address", "city", "status",
       "resolution_description", "latitude", "longitude", "raw_data"] := rfl

theorem serializeRow_row_311 (x r : Row) :
    serializeRow (row_311 x) (colNames (row_311 r)) = some (row_311 x) := by
  simp [colNames_row_311, serializeRow, getCol, row_311]

theorem serializeRows_of_all (cols : List String) (rows : List Row)
    (h : ∀ r ∈ rows, serializeRow r cols = some r) :
    serializeRows cols rows = some rows := by
  induction rows with
  | nil => rfl
  | cons a t ih =>
    have ha := h a (by simp)
    have ht := ih (fun r hr => h r (by simp [hr]))
    simp [serializeRows, ha, ht]

theorem rows_311_eq (data : List Row) :
    rows_311 data = (data.filter (fun r => keyed311 r)).map row_311 := by
  induction data with
  | nil => rfl
  | cons a t ih =>
    by_cases h : keyed311 a = true
    · simp [rows_311, List.filterMap_cons, h] at ih ⊢
      exact ih
    · simp [rows_311, List.filterMap_cons, h] at ih ⊢
      exact ih

theorem mem_rows_311 (data : List Row) (r : Row) (hr : r ∈ rows_311 data) :
    ∃ x, r = row_311 x := by
  rw [rows_311_eq] at hr
  obtain ⟨x, -, rfl⟩ := List.mem_map.mp hr
  exact ⟨x, rfl⟩

/-- C2: the 311 fetch pipeline drops exactly the records that lack their
natural key, without aborting the batch, and upserts the rest; the count
handed back by upsert_many equals the number of fetched records that carry
a key. -/
theorem fetch_311_drops_keyless (data : List Row) (defaults : Row) (store : List Row) :
    rows_311 data = (data.filter (fun r => keyed311 r)).map row_311 ∧
    (∃ store1, upsert_many "unique_key" defaults store (rows_311 data) =
      Except.ok ((data.filter (fun r => keyed311 r)).length, store1)) := by
  refine ⟨rows_311_eq data, ?_⟩
  have hlen : (rows_311 data).length = (data.filter (fun r => keyed311 r)).length := by
    rw [rows_311_eq]; exact List.length_map _ _
  cases hrows : rows_311 data with
  | nil =>
    refine ⟨store, ?_⟩
    have : (data.filter (fun r => keyed311 r)).length = 0 := by
      rw [← hlen, hrows]; rfl
    rw [this]
    rfl
  | cons r0 rest =>
    obtain ⟨x0, hx0⟩ := mem_rows_311 data r0 (by rw [hrows]; simp)
    have hser : serializeRows (colNames r0) (r0 :: rest) = some (r0 :: rest) := by
      refine serializeRows_of_all _ _ (fun r hr => ?_)
      obtain ⟨x, hx⟩ := mem_rows_311 data r (by rw [hrows]; exact hr)
      rw [hx, hx0]
      exact serializeRow_row_311 x x0
    refine ⟨(r0 :: rest).foldl (upsertOne "unique_key" (colNames r0) defaults) store, ?_⟩
    have hcount : (r0 :: rest).length = (data.filter (fun r => keyed311 r)).length := by
      rw [← hlen, hrows]
    rw [← hcount]
    simp [upsert_many, hser]

@[simp] theorem aggUpdate_data_source (now : String) (r t : AggRow) :
    (aggUpdate now r t).data_source = t.data_source := rfl

@[simp] theorem aggUpdate_period_type (now : String) (r t : AggRow) :
    (aggUpdate now r t).period_type = t.period_type := rfl

@[simp] theorem aggUpdate_period_start (now : String) (r t : AggRow) :
    (aggUpdate now r t).period_start = t.period_start := rfl

@[simp] theorem aggUpdate_category (now : String) (r t : AggRow) :
    (aggUpdate now r t).category = t.category := rfl

@[simp] theorem aggUpdate_count (now : String) (r t : AggRow) :
    (aggUpdate now r t).count = r.count := rfl

@[simp] theorem aggUpdate_computed_at (now : String) (r t : AggRow) :
    (aggUpdate now r t).computed_at = now := rfl

@[simp] theorem aggMatches_aggUpdate (ds pt ps : String) (cat : SQLVal)
    (now : String) (r t : AggRow) :
    aggMatches ds pt ps cat (aggUpdate now r t) ↔ aggMatches ds pt ps cat t := by
  simp [aggMatches]

theorem aggConflict_true_iff (r t : AggRow) :
    aggConflict r t = true ↔
      (r.category ≠ SQLVal.null ∧
        aggMatches r.data_source r.period_type r.period_start r.category t) := by
  unfold aggConflict aggMatches
  simp only [Bool.and_eq_true, decide_eq_true_eq, bne_iff_ne, ne_eq]
  constructor
  · rintro ⟨⟨⟨⟨h0, h1⟩, h2⟩, h3⟩, h4⟩
    exact ⟨h0, h1.symm, h2.symm, h3.symm, h4.symm⟩
  · rintro ⟨h0, h1, h2, h3, h4⟩
    exact ⟨⟨⟨⟨h0, h1.symm⟩, h2.symm⟩, h3.symm⟩, h4.symm⟩

theorem aggMatches_insert_iff (ds pt ps : String) (cat : SQLVal) (now : String) (r : AggRow) :
    aggMatches ds pt ps cat ({ r with computed_at := now } : AggRow) ↔
      (r.data_source = ds ∧ r.period_type = pt ∧ r.period_start = ps ∧ r.category = cat) := by
  simp [aggMatches]

theorem countAggKey_agg_upsert_miss (now : String) (S : List AggRow) (r : AggRow)
    (ds pt ps : String) (cat : SQLVal)
    (hne : ¬ (r.data_source = ds ∧ r.period_type = pt ∧ r.period_start = ps ∧ r.category = cat)) :
    countAggKey (agg_upsert now S r) ds pt ps cat = countAggKey S ds pt ps cat := by
  unfold agg_upsert
  by_cases hany : S.any (fun t => aggConflict r t) = true
  · rw [if_pos hany]
    rw [countAggKey, countAggKey, List.countP_map]
    refine List.countP_congr (fun t _ => ?_)
    by_cases hc : aggConflict r t = true
    · simp [Function.comp, hc]
    · simp [Function.comp, hc]
  · rw [if_neg hany]
    rw [countAggKey, countAggKey, List.countP_append]
    have hmm : ¬ aggMatches ds pt ps cat ({ r with computed_at := now } : AggRow) := by
      rw [aggMatches_insert_iff]
      exact hne
    simp [List.countP_cons, hmm]

theorem mem_agg_upsert_miss (now : String) (S : List AggRow) (r : AggRow)
    (ds pt ps : String) (cat : SQLVal)
    (hne : ¬ (r.data_source = ds ∧ r.period_type = pt ∧ r.period_start = ps ∧ r.category = cat))
    (t : AggRow) (ht : t ∈ agg_upsert now S r) (hm : aggMatches ds pt ps cat t) :
    t ∈ S := by
  unfold agg_upsert at ht
  by_cases hany : S.any (fun t => aggConflict r t) = true
  · rw [if_pos hany] at ht
    obtain ⟨u, hu, hut⟩ := List.mem_map.mp ht
    by_cases hc : aggConflict r u = true
    · exfalso
      rw [if_pos hc] at hut
      rw [← hut] at hm
      rw [aggMatches_aggUpdate] at hm
      obtain ⟨-, hmatch⟩ := (aggConflict_true_iff r u).mp hc
      obtain ⟨m1, m2, m3, m4⟩ := hmatch
      obtain ⟨h1, h2, h3, h4⟩ := hm
      exact hne ⟨m1.symm.trans h1, m2.symm.trans h2, m3.symm.trans h3, m4.symm.trans h4⟩
    · rw [if_neg hc] at hut
      rwa [← hut]
  · rw [if_neg hany] at ht
    rcases List.mem_append.mp ht with ht | ht
    · exact ht
    · exfalso
      rw [List.mem_singleton] at ht
      rw [ht, aggMatches_insert_iff] at hm
      exact hne hm

theorem agg_upsert_hit_vals (now : String) (S : List AggRow) (r : AggRow)
    (ds pt ps : String) (cat : SQLVal)
    (hr : r.data_source = ds ∧ r.period_type = pt ∧ r.period_start = ps ∧ r.category = cat)
    (hcat : cat ≠ SQLVal.null)
    (t : AggRow) (ht : t ∈ agg_upsert now S r) (hm : aggMatches ds pt ps cat t) :
    t.count = r.count ∧ t.computed_at = now := by
  obtain ⟨h1, h2, h3, h4⟩ := hr
  have hconfl : ∀ u : AggRow, aggConflict r u = true ↔ aggMatches ds pt ps cat u := by
    intro u
    rw [aggConflict_true_iff]
    constructor
    · rintro ⟨-, hmm⟩
      rw [h1, h2, h3, h4] at hmm
      exact hmm
    · intro hmm
      refine ⟨by rw [h4]; exact hcat, ?_⟩
      rw [h1, h2, h3, h4]
      exact hmm
  unfold agg_upsert at ht
  by_cases hany : S.any (fun t => aggConflict r t) = true
  · rw [if_pos hany] at ht
    obtain ⟨u, hu, hut⟩ := List.mem_map.mp ht
    by_cases hc : aggConflict r u = true
    · rw [if_pos hc] at hut
      rw [← hut]
      exact ⟨rfl, rfl⟩
    · exfalso
      rw [if_neg hc] at hut
      rw [← hut] at hm
      exact hc ((hconfl u).mpr hm)
  · rw [if_neg hany] at ht
    rcases List.mem_append.mp ht with ht | ht
    · exfalso
      apply hany
      rw [List.any_eq_true]
      exact ⟨t, ht, (hconfl t).mpr hm⟩
    · rw [List.mem_singleton] at ht
      rw [ht]
      exact ⟨rfl, rfl⟩

theorem countAggKey_agg_upsert_hit (now : String) (S : List AggRow) (r : AggRow)
    (ds pt ps : String) (cat : SQLVal)
    (hr : r.data_source = ds ∧ r.period_type = pt ∧ r.period_start = ps ∧ r.category = cat)
    (hcat : cat ≠ SQLVal.null) :
    countAggKey (agg_upsert now S r) ds pt ps cat =
      if 0 < countAggKey S ds pt ps cat then countAggKey S ds pt ps cat else 1 := by
  obtain ⟨h1, h2, h3, h4⟩ := hr
  have hconfl : ∀ u : AggRow, aggConflict r u = true ↔ aggMatches ds pt ps cat u := by
    intro u
    rw [aggConflict_true_iff]
    constructor
    · rintro ⟨-, hmm⟩
      rw [h1, h2, h3, h4] at hmm
      exact hmm
    · intro hmm
      refine ⟨by rw [h4]; exact hcat, ?_⟩
      rw [h1, h2, h3, h4]
      exact hmm
  have hany_iff : S.any (fun t => aggConflict r t) = true ↔ 0 < countAggKey S ds pt ps cat := by
    rw [List.any_eq_true, countAggKey, List.countP_pos_iff]
    constructor
    · rintro ⟨u, hu, hc⟩
      exact ⟨u, hu, by simpa using (hconfl u).mp hc⟩
    · rintro ⟨u, hu, hc⟩
      exact ⟨u, hu, (hconfl u).mpr (by simpa using hc)⟩
  unfold agg_upsert
  by_cases hany : S.any (fun t => aggConflict r t) = true
  · have hpos : 0 < countAggKey S ds pt ps cat := hany_iff.mp hany
    rw [if_pos hany, if_pos hpos]
    rw [countAggKey, countAggKey, List.countP_map]
    refine List.countP_congr (fun t _ => ?_)
    by_cases hc : aggConflict r t = true
    · simp [Function.comp, hc]
    · simp [Function.comp, hc]
  · have hzero : ¬ 0 < countAggKey S ds pt ps cat := fun h => hany (hany_iff.mpr h)
    have hc0 : countAggKey S ds pt ps cat = 0 := by omega
    have hmr : aggMatches ds pt ps cat ({ r with computed_at := now } : AggRow) := by
      rw [aggMatches_insert_iff]
      exact ⟨h1, h2, h3, h4⟩
    rw [if_neg hany, if_neg hzero]
    rw [countAggKey, List.countP_append]
    rw [countAggKey] at hc0
    rw [hc0]
    simp [List.countP_cons, hmr]

theorem agg_fold_miss_count (now : String) (rs : List AggRow) (S : List AggRow)
    (ds pt ps : String) (cat : SQLVal)
    (h : ∀ r ∈ rs, ¬ (r.data_source = ds ∧ r.period_type = pt ∧ r.period_start = ps ∧ r.category = cat)) :
    countAggKey (rs.foldl (agg_upsert now) S) ds pt ps cat = countAggKey S ds pt ps cat := by
  induction rs generalizing S with
  | nil => rfl
  | cons a t ih =>
    rw [List.foldl_cons]
    rw [ih _ (fun r hr => h r (by simp [hr]))]
    exact countAggKey_agg_upsert_miss now S a ds pt ps cat (h a (by simp))

theorem agg_fold_miss_mem (now : String) (rs : List AggRow) (S : List AggRow)
    (ds pt ps : String) (cat : SQLVal)
    (h : ∀ r ∈ rs, ¬ (r.data_source = ds ∧ r.period_type = pt ∧ r.period_start = ps ∧ r.category = cat))
    (t : AggRow) (ht : t ∈ rs.foldl (agg_upsert now) S) (hm : aggMatches ds pt ps cat t) :
    t ∈ S := by
  induction rs generalizing S with
  | nil => exact ht
  | cons a rest ih =>
    rw [List.foldl_cons] at ht
    have := ih (agg_upsert now S a) (fun r hr => h r (by simp [hr])) ht
    exact mem_agg_upsert_miss now S a ds pt ps cat (h a (by simp)) t this hm

theorem mem_agg_rows_311 (day dn : String) (results : List (SQLVal × Int)) (r : AggRow)
    (hr : r ∈ agg_rows_311 day dn results) :
    ∃ q ∈ results, r = AggRow.mk "311" "daily" day dn q.1 q.2 "" := by
  obtain ⟨q, hq, rfl⟩ := List.mem_map.mp hr
  exact ⟨q, hq, rfl⟩

theorem agg_fold_results (now day dn : String) (results : List (SQLVal × Int))
    (S : List AggRow) (cat : SQLVal) (n : Int)
    (hmem : (cat, n) ∈ results) (hnd : (results.map Prod.fst).Nodup)
    (hcat : cat ≠ SQLVal.null) :
    (∀ t ∈ (agg_rows_311 day dn results).foldl (agg_upsert now) S,
       aggMatches "311" "daily" day cat t → t.count = n ∧ t.computed_at = now) ∧
    countAggKey ((agg_rows_311 day dn results).foldl (agg_upsert now) S) "311" "daily" day cat
      = if 0 < countAggKey S "311" "daily" day cat then countAggKey S "311" "daily" day cat else 1 := by
  induction results generalizing S with
  | nil => simp at hmem
  | cons p rest ih =>
    have hrows : agg_rows_311 day dn (p :: rest) =
        AggRow.mk "311" "daily" day dn p.1 p.2 "" :: agg_rows_311 day dn rest := by
      simp [agg_rows_311]
    have hndrest : (rest.map Prod.fst).Nodup := by
      rw [List.map_cons] at hnd
      exact hnd.of_cons
    have hheadnot : p.1 ∉ rest.map Prod.fst := by
      rw [List.map_cons] at hnd
      exact (List.nodup_cons.mp hnd).1
    by_cases hp : p.1 = cat
    · have hn : p.2 = n := by
        rcases List.mem_cons.mp hmem with h | h
        · rw [← h]
        · exfalso
          apply hheadnot
          rw [hp]
          exact List.mem_map.mpr ⟨(cat, n), h, rfl⟩
      have hhit : (AggRow.mk "311" "daily" day dn p.1 p.2 "").data_source = "311" ∧
          (AggRow.mk "311" "daily" day dn p.1 p.2 "").period_type = "daily" ∧
          (AggRow.mk "311" "daily" day dn p.1 p.2 "").period_start = day ∧
          (AggRow.mk "311" "daily" day dn p.1 p.2 "").category = cat :=
        ⟨rfl, rfl, rfl, hp⟩
      have hmiss : ∀ r ∈ agg_rows_311 day dn rest,
          ¬ (r.data_source = "311" ∧ r.period_type = "daily" ∧ r.period_start = day ∧ r.category = cat) := by
        intro r hr hmm
        obtain ⟨q, hq, rfl⟩ := mem_agg_rows_311 day dn rest r hr
        apply hheadnot
        rw [hp]
        have : q.1 = cat := hmm.2.2.2
        rw [← this]
        exact List.mem_map.mpr ⟨q, hq, rfl⟩
      rw [hrows, List.foldl_cons]
      constructor
      · intro t ht hmt
        have ht1 : t ∈ agg_upsert now S (AggRow.mk "311" "daily" day dn p.1 p.2 "") :=
          agg_fold_miss_mem now _ _ _ _ _ _ hmiss t ht hmt
        have := agg_upsert_hit_vals now S _ "311" "daily" day cat hhit hcat t ht1 hmt
        rw [← hn]
        exact this
      · rw [agg_fold_miss_count now _ _ _ _ _ _ hmiss]
        exact countAggKey_agg_upsert_hit now S _ "311" "daily" day cat hhit hcat
    · have hmem' : (cat, n) ∈ rest := by
        rcases List.mem_cons.mp hmem with h | h
        · exfalso
          apply hp
          rw [← h]
        · exact h
      have hmiss1 : ¬ ((AggRow.mk "311" "daily" day dn p.1 p.2 "").data_source = "311" ∧
          (AggRow.mk "311" "daily" day dn p.1 p.2 "").period_type = "daily" ∧
          (AggRow.mk "311" "daily" day dn p.1 p.2 "").period_start = day ∧
          (AggRow.mk "311" "daily" day dn p.1 p.2 "").category = cat) := by
        intro hmm
        exact hp hmm.2.2.2
      rw [hrows, List.foldl_cons]
      have hrec := ih hmem' hndrest (S := agg_upsert now S (AggRow.mk "311" "daily" day dn p.1 p.2 ""))
      refine ⟨hrec.1, ?_⟩
      rw [hrec.2]
      rw [countAggKey_agg_upsert_miss now S _ "311" "daily" day cat hmiss1]

theorem distinctVals_nodup_aux {κ : Type} [DecidableEq κ] (l : List κ) (acc : List κ)
    (hacc : acc.Nodup) :
    (l.foldl (fun acc v => if v ∈ acc then acc else acc ++ [v]) acc).Nodup := by
  induction l generalizing acc with
  | nil => exact hacc
  | cons a t ih =>
    rw [List.foldl_cons]
    by_cases ha : a ∈ acc
    · rw [if_pos ha]
      exact ih acc hacc
    · rw [if_neg ha]
      refine ih _ ?_
      rw [List.nodup_append]
      exact ⟨hacc, List.nodup_singleton a, by simpa using ha⟩

theorem distinctVals_nodup {κ : Type} [DecidableEq κ] (l : List κ) : (distinctVals l).Nodup :=
  distinctVals_nodup_aux l [] List.nodup_nil

theorem results_311_nodup (c : List Row) (day : String) :
    ((results_311 c day).map Prod.fst).Nodup := by
  have : (results_311 c day).map Prod.fst =
      distinctVals ((c.filter (fun r => sqlDate ((getCol r "created_date").getD SQLVal.null) = some day)).map
        (fun r => (getCol r "complaint_type").getD SQLVal.null)) := by
    simp only [results_311, groupCounts, List.map_map]
    exact List.map_id' _
  rw [this]
  exact distinctVals_nodup _

theorem compute_aggregations_day_eq (now day dn : String) (c : List Row) (S : List AggRow) :
    compute_aggregations_day now day dn c S =
      (agg_rows_311 day dn (results_311 c day)).foldl (agg_upsert now) S := rfl

/-- C3: recomputing the daily 311 aggregations twice over the same bucket
tuple leaves exactly one row for that tuple, whose stored count is the
value produced by the latest computation alone (stamped with the latest
computed_at), never the sum of the two computations. -/
theorem aggregation_recompute_overwrites
    (store : List AggRow) (cA cB : List Row) (day dn t1 t2 : String)
    (cat : SQLVal) (n2 : Int)
    (hwf : countAggKey store "311" "daily" day cat ≤ 1)
    (hcat : cat ≠ SQLVal.null)
    (hn2 : (cat, n2) ∈ results_311 cB day) :
    countAggKey (compute_aggregations_day t2 day dn cB
        (compute_aggregations_day t1 day dn cA store)) "311" "daily" day cat = 1 ∧
    (∀ t ∈ compute_aggregations_day t2 day dn cB (compute_aggregations_day t1 day dn cA store),
       aggMatches "311" "daily" day cat t → t.count = n2 ∧ t.computed_at = t2) ∧
    (∀ n1 : Int, (cat, n1) ∈ results_311 cA day → 0 < n1 →
       ∀ t ∈ compute_aggregations_day t2 day dn cB (compute_aggregations_day t1 day dn cA store),
         aggMatches "311" "daily" day cat t → t.count ≠ n1 + n2) := by
  have h1le : countAggKey (compute_aggregations_day t1 day dn cA store) "311" "daily" day cat ≤ 1 := by
    rw [compute_aggregations_day_eq]
    by_cases hA : ∃ nA, (cat, nA) ∈ results_311 cA day
    · obtain ⟨nA, hA⟩ := hA
      rw [(agg_fold_results t1 day dn (results_311 cA day) store cat nA hA
            (results_311_nodup cA day) hcat).2]
      by_cases hpos : 0 < countAggKey store "311" "daily" day cat
      · rw [if_pos hpos]
        exact hwf
      · rw [if_neg hpos]
    · have hmiss : ∀ r ∈ agg_rows_311 day dn (results_311 cA day),
          ¬ (r.data_source = "311" ∧ r.period_type = "daily" ∧ r.period_start = day ∧ r.category = cat) := by
        intro r hr hmm
        obtain ⟨q, hq, rfl⟩ := mem_agg_rows_311 day dn _ r hr
        apply hA
        refine ⟨q.2, ?_⟩
        have : q.1 = cat := hmm.2.2.2
        rw [← this]
        exact hq
      rw [agg_fold_miss_count t1 _ _ _ _ _ _ hmiss]
      exact hwf
  have hmain := agg_fold_results t2 day dn (results_311 cB day)
    (compute_aggregations_day t1 day dn cA store) cat n2 hn2 (results_311_nodup cB day) hcat
  rw [← compute_aggregations_day_eq] at hmain
  refine ⟨?_, hmain.1, ?_⟩
  · rw [hmain.2]
    have : countAggKey (compute_aggregations_day t1 day dn cA store) "311" "daily" day cat = 0 ∨
        countAggKey (compute_aggregations_day t1 day dn cA store) "311" "daily" day cat = 1 := by
      omega
    rcases this with h | h
    · rw [h]
      rfl
    · rw [h]
      rfl
  · intro n1 hn1 hpos t ht hmt
    rw [(hmain.1 t ht hmt).1]
    omega

/-- Closed instance of the aggregation-overwrite theorem: one Noise
complaint on the first computation, two on the second; afterwards the
bucket for that day and category exists exactly once. -/
theorem aggregation_recompute_overwrites_witness :
    countAggKey (compute_aggregations_day "t2" "2024-01-01" "2024-01-02"
        [[("created_date", SQLVal.text "2024-01-01T10:00:00"), ("complaint_type", SQLVal.text "Noise")],
         [("created_date", SQLVal.text "2024-01-01T10:00:00"), ("complaint_type", SQLVal.text "Noise")]]
        (compute_aggregations_day "t1" "2024-01-01" "2024-01-02"
          [[("created_date", SQLVal.text "2024-01-01T10:00:00"), ("complaint_type", SQLVal.text "Noise")]] []))
      "311" "daily" "2024-01-01" (SQLVal.text "Noise") = 1 :=
  (aggregation_recompute_overwrites []
    [[("created_date", SQLVal.text "2024-01-01T10:00:00"), ("complaint_type", SQLVal.text "Noise")]]
    [[("created_date", SQLVal.text "2024-01-01T10:00:00"), ("complaint_type", SQLVal.text "Noise")],
     [("created_date", SQLVal.text "2024-01-01T10:00:00"), ("complaint_type", SQLVal.text "Noise")]]
    "2024-01-01" "2024-01-02" "t1" "t2" (SQLVal.text "Noise") 2
    (by decide) (by decide) (by decide)).1

theorem corp_name_ne_empty (c : Contact) (s : String) (h : corp_name c = some s) : s ≠ "" := by
  unfold corp_name at h
  cases hc : c.corporationname with
  | none =>
    rw [hc] at h
    exact absurd h (by simp)
  | some t =>
    rw [hc] at h
    by_cases ht : t = ""
    · simp [ht] at h
    · simp [ht] at h
      rw [← h]
      exact ht

theorem full_name_ne_empty (c : Contact) (s : String) (h : full_name c = some s) : s ≠ "" := by
  unfold full_name at h
  by_cases ht : (c.firstname ++ " " ++ c.lastname).trim = ""
  · rw [if_pos ht] at h
    exact absurd h (by simp)
  · rw [if_neg ht] at h
    rw [← Option.some_inj.mp h]
    exact ht

theorem corp_owner_name_ne_empty (c : Contact) : corp_owner_name c ≠ "" := by
  unfold corp_owner_name
  cases hcn : corp_name c with
  | some s =>
    rw [Option.or_some]
    exact corp_name_ne_empty c s hcn
  | none =>
    rw [Option.none_or]
    cases hfn : full_name c with
    | some f =>
      exact full_name_ne_empty c f hfn
    | none =>
      simp

theorem indiv_owner_name_ne_empty (c : Contact) : indiv_owner_name c ≠ "" := by
  unfold indiv_owner_name
  cases hfn : full_name c with
  | some f => exact full_name_ne_empty c f hfn
  | none => simp

theorem contactStep_corp (R : ContactResult) (c : Contact) (h : c.ctype = "CorporateOwner") :
    contactStep R c = { R with owner_name := some (corp_owner_name c),
                               owner_type := some "CorporateOwner",
                               corporation_name := corp_name c } := by
  simp [contactStep, h, corp_owner_name]

theorem contactStep_ind_set (R : ContactResult) (c : Contact)
    (h : c.ctype = "IndividualOwner") (hR : pyFalsyStr R.owner_name = true) :
    contactStep R c = { R with owner_name := some (indiv_owner_name c),
                               owner_type := some "IndividualOwner" } := by
  simp [contactStep, h, hR, indiv_owner_name]

theorem contactStep_ind_keep (R : ContactResult) (c : Contact)
    (h : c.ctype = "IndividualOwner") (hR : pyFalsyStr R.owner_name = false) :
    contactStep R c = R := by
  simp [contactStep, h, hR]

theorem contactStep_other_owner (R : ContactResult) (c : Contact)
    (hnc : c.ctype ≠ "CorporateOwner") (hni : c.ctype ≠ "IndividualOwner") :
    (contactStep R c).owner_name = R.owner_name ∧ (contactStep R c).owner_type = R.owner_type := by
  unfold contactStep
  rw [if_neg hnc, if_neg hni]
  by_cases h1 : c.ctype = "HeadOfficer"
  · rw [if_pos h1]
    exact ⟨rfl, rfl⟩
  · rw [if_neg h1]
    by_cases h2 : c.ctype = "Officer"
    · rw [if_pos h2]
      exact ⟨rfl, rfl⟩
    · rw [if_neg h2]
      by_cases h3 : c.ctype = "Agent"
      · rw [if_pos h3]
        exact ⟨rfl, rfl⟩
      · rw [if_neg h3]
        exact ⟨rfl, rfl⟩

theorem fold_preserves_owner (l : List Contact) (R : ContactResult)
    (hnc : ∀ c ∈ l, c.ctype ≠ "CorporateOwner")
    (s : String) (hset : R.owner_name = some s) (hs : s ≠ "") :
    (l.foldl contactStep R).owner_name = some s ∧
    (l.foldl contactStep R).owner_type = R.owner_type := by
  induction l generalizing R with
  | nil => exact ⟨hset, rfl⟩
  | cons a t ih =>
    rw [List.foldl_cons]
    have hna := hnc a (by simp)
    by_cases hai : a.ctype = "IndividualOwner"
    · have hfal : pyFalsyStr R.owner_name = false := by
        rw [hset]
        simp [pyFalsyStr, hs]
      rw [contactStep_ind_keep R a hai hfal]
      exact ih R (fun c hc => hnc c (by simp [hc])) hset
    · have hother := contactStep_other_owner R a hna hai
      have hrec := ih (contactStep R a) (fun c hc => hnc c (by simp [hc]))
        (hother.1.trans hset)
      exact ⟨hrec.1, hrec.2.trans hother.2⟩

theorem fold_corporate (l : List Contact) (R : ContactResult)
    (hne : l.filter (fun c => c.ctype = "CorporateOwner") ≠ []) :
    ∃ c, (l.filter (fun c => c.ctype = "CorporateOwner")).getLast? = some c ∧
      (l.foldl contactStep R).owner_name = some (corp_owner_name c) ∧
      (l.foldl contactStep R).owner_type = some "CorporateOwner" := by
  induction l generalizing R with
  | nil => exact absurd rfl hne
  | cons a t ih =>
    rw [List.foldl_cons]
    by_cases ha : a.ctype = "CorporateOwner"
    · rw [List.filter_cons_of_pos (by simp [ha])] at hne ⊢
      by_cases ht : t.filter (fun c => c.ctype = "CorporateOwner") = []
      · have hntc : ∀ c ∈ t, c.ctype ≠ "CorporateOwner" := by
          intro c hc hcc
          exact (List.filter_eq_nil_iff.mp ht) c hc (by simp [hcc])
        rw [contactStep_corp R a ha]
        have hpres := fold_preserves_owner t
          ({ R with owner_name := some (corp_owner_name a),
                    owner_type := some "CorporateOwner",
                    corporation_name := corp_name a })
          hntc (corp_owner_name a) rfl (corp_owner_name_ne_empty a)
        refine ⟨a, ?_, hpres.1, hpres.2.trans rfl⟩
        rw [ht]
        rfl
      · obtain ⟨c, hc1, hc2, hc3⟩ := ih (contactStep R a) ht
        refine ⟨c, ?_, hc2, hc3⟩
        cases hft : t.filter (fun c => c.ctype = "CorporateOwner") with
        | nil => exact absurd hft ht
        | cons b l2 =>
          rw [hft] at hc1
          rw [List.getLast?_cons_cons]
          exact hc1
    · rw [List.filter_cons_of_neg (by simp [ha])] at hne ⊢
      exact ih (contactStep R a) hne

theorem fold_individual (l : List Contact) (R : ContactResult)
    (hnc : ∀ c ∈ l, c.ctype ≠ "CorporateOwner")
    (hRnone : R.owner_name = none)
    (hne : l.filter (fun c => c.ctype = "IndividualOwner") ≠ []) :
    ∃ c, (l.filter (fun c => c.ctype = "IndividualOwner")).head? = some c ∧
      (l.foldl contactStep R).owner_name = some (indiv_owner_name c) ∧
      (l.foldl contactStep R).owner_type = some "IndividualOwner" := by
  induction l generalizing R with
  | nil => exact absurd rfl hne
  | cons a t ih =>
    rw [List.foldl_cons]
    by_cases ha : a.ctype = "IndividualOwner"
    · rw [List.filter_cons_of_pos (by simp [ha])]
      rw [contactStep_ind_set R a ha (by rw [hRnone]; rfl)]
      have hntc : ∀ c ∈ t, c.ctype ≠ "CorporateOwner" := fun c hc => hnc c (by simp [hc])
      have hpres := fold_preserves_owner t
        ({ R with owner_name := some (indiv_owner_name a),
                  owner_type := some "IndividualOwner" })
        hntc (indiv_owner_name a) rfl (indiv_owner_name_ne_empty a)
      exact ⟨a, rfl, hpres.1, hpres.2.trans rfl⟩
    · rw [List.filter_cons_of_neg (by simp [ha])] at hne ⊢
      have hna := hnc a (by simp)
      have hother := contactStep_other_owner R a hna ha
      exact ih (contactStep R a) (fun c hc => hnc c (by simp [hc]))
        (hother.1.trans hRnone) hne

theorem fold_no_owner (l : List Contact) (R : ContactResult)
    (hnc : ∀ c ∈ l, c.ctype ≠ "CorporateOwner")
    (hni : ∀ c ∈ l, c.ctype ≠ "IndividualOwner")
    (hn : R.owner_name = none) (ht : R.owner_type = none) :
    (l.foldl contactStep R).owner_name = none ∧
    (l.foldl contactStep R).owner_type = none := by
  induction l generalizing R with
  | nil => exact ⟨hn, ht⟩
  | cons a t ih =>
    rw [List.foldl_cons]
    have hother := contactStep_other_owner R a (hnc a (by simp)) (hni a (by simp))
    exact ih (contactStep R a)
      (fun c hc => hnc c (by simp [hc])) (fun c hc => hni c (by simp [hc]))
      (hother.1.trans hn) (hother.2.trans ht)

/-- C7: for every candidate contact list, in whatever order the upstream
returns it, owner resolution obeys the precedence CorporateOwner over
IndividualOwner over the other contact types: some corporate owner wins
whenever one is present (the last one listed, since corporate owners
overwrite unconditionally), an individual owner fills the owner fields
only when no corporate owner exists, and otherwise the owner stays unset;
for a corporate owner the corporate name is preferred over the individual
full name whenever it is present. -/
theorem owner_resolution_precedence (l : List Contact) :
    ((∃ c ∈ l, c.ctype = "CorporateOwner") →
      (resolve_contacts l).owner_type = some "CorporateOwner" ∧
      ∃ c, lastCorporate l = some c ∧
        (resolve_contacts l).owner_name = some (corp_owner_name c)) ∧
    ((¬ ∃ c ∈ l, c.ctype = "CorporateOwner") → (∃ c ∈ l, c.ctype = "IndividualOwner") →
      (resolve_contacts l).owner_type = some "IndividualOwner" ∧
      ∃ c, firstIndividual l = some c ∧
        (resolve_contacts l).owner_name = some (indiv_owner_name c)) ∧
    ((¬ ∃ c ∈ l, c.ctype = "CorporateOwner") → (¬ ∃ c ∈ l, c.ctype = "IndividualOwner") →
      (resolve_contacts l).owner_name = none ∧ (resolve_contacts l).owner_type = none) ∧
    (∀ c : Contact, ∀ s : String, corp_name c = some s → corp_owner_name c = s) := by
  refine ⟨?_, ?_, ?_, ?_⟩
  · rintro ⟨c0, hc0, hcc0⟩
    have hne : l.filter (fun c => c.ctype = "CorporateOwner") ≠ [] :=
      List.ne_nil_of_mem (List.mem_filter.mpr ⟨hc0, by simp [hcc0]⟩)
    obtain ⟨c, hc1, hc2, hc3⟩ := fold_corporate l emptyContactResult hne
    exact ⟨hc3, c, hc1, hc2⟩
  · rintro hnc ⟨c0, hc0, hcc0⟩
    have hnc' : ∀ c ∈ l, c.ctype ≠ "CorporateOwner" := by
      intro c hc hcc
      exact hnc ⟨c, hc, hcc⟩
    have hne : l.filter (fun c => c.ctype = "IndividualOwner") ≠ [] :=
      List.ne_nil_of_mem (List.mem_filter.mpr ⟨hc0, by simp [hcc0]⟩)
    obtain ⟨c, hc1, hc2, hc3⟩ := fold_individual l emptyContactResult hnc' rfl hne
    exact ⟨hc3, c, hc1, hc2⟩
  · intro hnc hni
    refine fold_no_owner l emptyContactResult ?_ ?_ rfl rfl
    · intro c hc hcc
      exact hnc ⟨c, hc, hcc⟩
    · intro c hc hcc
      exact hni ⟨c, hc, hcc⟩
  · intro c s h
    unfold corp_owner_name
    rw [h, Option.or_some]
    rfl

/-- Closed instance of owner resolution: an individual owner listed before
a corporate owner still loses to the corporate owner, and the corporate
name is used as owner_name. -/
theorem owner_resolution_precedence_witness :
    (resolve_contacts
      [Contact.mk "IndividualOwner" "Jane" "Doe" none,
       Contact.mk "CorporateOwner" "" "" (some "ACME LLC")]).owner_type =
      some "CorporateOwner" :=
  ((owner_resolution_precedence
    [Contact.mk "IndividualOwner" "Jane" "Doe" none,
     Contact.mk "CorporateOwner" "" "" (some "ACME LLC")]).1
    (by exact ⟨Contact.mk "CorporateOwner" "" "" (some "ACME LLC"), by simp, rfl⟩)).1

/-- C4 counterexample: the 311 adapter itself does raise past its own
boundary. On a 500 response, on a transport error and on a malformed
payload, fetch_311_complaints propagates an exception instead of
returning zero records, so the claim as stated of the adapter is false. -/
theorem adapter_raises_counterexample :
    fetch_311_complaints (HttpResult.response 500 (some [])) [] [] =
      Except.error "HTTPStatusError" ∧
    fetch_311_complaints (HttpResult.failure "ConnectError") [] [] =
      Except.error "ConnectError" ∧
    fetch_311_complaints (HttpResult.response 200 none) [] [] =
      Except.error "JSONDecodeError" ∧
    fetch_311_complaints (HttpResult.response 500 (some [])) [] [] ≠
      Except.ok (0, []) :=
  ⟨rfl, rfl, rfl, fun hcontra => Except.noConfusion hcontra⟩

/-- C4 amended: failure isolation lives in the scheduler wrapper, not in
the adapter. Every scheduled job body is wrapped in _safe_run, which
catches any raised failure and logs it instead of propagating, so every
job of a tick gets its own outcome regardless of the other jobs, and in
the two-step HPD job the second fetch still runs when the first raises. -/
theorem safe_run_isolates_failures (jobs : List (String × Except String ℕ))
    (p : String × Except String ℕ) (hp : p ∈ jobs) :
    (run_named_jobs jobs).length = jobs.length ∧
    (p.1, _safe_run p.2) ∈ run_named_jobs jobs ∧
    (∀ e, _safe_run (Except.error e) = SafeOutcome.failedLog e) ∧
    (∀ e r2, job_fetch_hpd (Except.error e) r2 =
      [("HPD violations", SafeOutcome.failedLog e), ("HPD complaints", _safe_run r2)]) :=
  ⟨by simp [run_named_jobs], List.mem_map.mpr ⟨p, hp, rfl⟩,
   fun _ => rfl, fun _ _ => rfl⟩

/-- Closed instance of failure isolation: with one failing and one
succeeding job on the same tick, the succeeding job's completion is still
logged. -/
theorem safe_run_isolates_failures_witness :
    ("B", SafeOutcome.completedLog 3) ∈
      run_named_jobs [("A", Except.error "boom"), ("B", Except.ok 3)] :=
  (safe_run_isolates_failures [("A", Except.error "boom"), ("B", Except.ok 3)]
    ("B", Except.ok 3) (by simp)).2.1

/-- C8 counterexample: the 911 breakdown has no fallback window. With one
stored call whose incident date long precedes the requested window, the
code returns an empty breakdown even though data exists, while the
spec-described latest-record-anchored fallback would return that call's
group, so the claim as stated is false of the code. -/
theorem breakdown_fallback_counterexample :
    get_911_type_breakdown "2025-09-12T00:00:00"
      [[("incident_date", SQLVal.text "2020-01-15T00:00:00"),
        ("call_type", SQLVal.text "DISPUTE")]] = [] ∧
    get_911_type_breakdown_spec "2025-09-12T00:00:00" 30
      [[("incident_date", SQLVal.text "2020-01-15T00:00:00"),
        ("call_type", SQLVal.text "DISPUTE")]] = [(SQLVal.text "DISPUTE", 1)] := by
  constructor
  · decide
  · decide

/-- C8 amended: the trend and breakdown queries always anchor their
window at the current wall clock; when the requested window contains no
data they simply return an empty result, with no fallback to the latest
available record date. -/
theorem empty_window_empty_result (since : String) (calls complaints : List Row)
    (h1 : ∀ r ∈ calls, sqlTextGt ((getCol r "incident_date").getD SQLVal.null) since = false)
    (h2 : ∀ r ∈ complaints, sqlTextGt ((getCol r "created_date").getD SQLVal.null) since = false)
    (ctype : Option String) :
    get_911_type_breakdown since calls = [] ∧
    get_311_trend since ctype complaints = [] := by
  constructor
  · unfold get_911_type_breakdown
    have hf : calls.filter (fun r => sqlTextGt ((getCol r "incident_date").getD SQLVal.null) since) = [] :=
      List.filter_eq_nil_iff.mpr (fun r hr => by simp [h1 r hr])
    rw [hf]
    rfl
  · unfold get_311_trend
    have hf : complaints.filter (fun r =>
        sqlTextGt ((getCol r "created_date").getD SQLVal.null) since &&
        (match ctype with
         | none => true
         | some t => getCol r "complaint_type" = some (SQLVal.text t))) = [] :=
      List.filter_eq_nil_iff.mpr (fun r hr => by simp [h2 r hr])
    rw [hf]
    rfl

/-- Closed instance of the empty-window behaviour: a stale store and a
window in the future give empty breakdown and trend results. -/
theorem empty_window_empty_result_witness :
    get_911_type_breakdown "2025-09-12T00:00:00"
      [[("incident_date", SQLVal.text "2020-01-15T00:00:00")]] = [] ∧
    get_311_trend "2025-09-12T00:00:00" none [] = [] :=
  empty_window_empty_result "2025-09-12T00:00:00"
    [[("incident_date", SQLVal.text "2020-01-15T00:00:00")]] []
    (by decide) (by decide) none

/-- C9 counterexample: nothing makes the backfill pass complete before
the first steady-state tick. The notify_nyc job is registered with a
five-minute interval, and a backfill whose steps take six minutes in
total is still running when that first tick fires, so the claimed
ordering guarantee is false. -/
theorem backfill_first_tick_counterexample :
    ("notify_nyc", 5) ∈ setup_scheduler_jobs ∧
    ¬ backfill_completes_before_first_ticks [2, 1, 1, 1, 1, 0, 0, 0, 0, 0] := by
  constructor
  · decide
  · intro h
    have h5 := h ("notify_nyc", 5) (by decide)
    norm_num [backfill_completion_time, first_tick_time, List.sum_cons, List.sum_nil] at h5

/-- C9 amended: when the store reports zero primary records the startup
spawns exactly one backfill pass, but only after the steady-state
scheduler has already been started, as a detached background task; each
of its ten steps is wrapped in _safe_run so a failing step logs and the
next still runs. Completion before the first interval tick is not
guaranteed. -/
theorem backfill_spawn_once_after_scheduler (eventsCount : Except String ℕ)
    (outcome : String → Except String ℕ) (h0 : eventsCount = Except.ok 0) :
    lifespan_startup eventsCount =
      [StartEvent.initDb, StartEvent.checkStore, StartEvent.schedulerStart,
       StartEvent.spawnBackfillTask] ∧
    (lifespan_startup eventsCount).count StartEvent.spawnBackfillTask = 1 ∧
    (run_backfill outcome).length = backfill_step_names.length ∧
    (∀ n ∈ backfill_step_names, (n, _safe_run (outcome n)) ∈ run_backfill outcome) := by
  subst h0
  refine ⟨rfl, rfl, by simp [run_backfill], fun n hn => List.mem_map.mpr ⟨n, hn, rfl⟩⟩

/-- Closed instance of the amended startup behaviour: an empty store with
an all-failing backfill still produces the spawn-after-scheduler trace. -/
theorem backfill_spawn_once_after_scheduler_witness :
    lifespan_startup (Except.ok 0) =
      [StartEvent.initDb, StartEvent.checkStore, StartEvent.schedulerStart,
       StartEvent.spawnBackfillTask] :=
  (backfill_spawn_once_after_scheduler (Except.ok 0) (fun _ => Except.error "down") rfl).1

theorem alistGet_map_self {κ β : Type} [DecidableEq κ] (f : κ → β) (ks : List κ) (k : κ) :
    alistGet (ks.map (fun x => (x, f x))) k = if k ∈ ks then some (f k) else none := by
  induction ks with
  | nil => simp [alistGet]
  | cons a t ih =>
    rw [List.map_cons]
    by_cases ha : a = k
    · subst ha
      simp [alistGet]
    · have hstep : alistGet ((a, f a) :: t.map (fun x => (x, f x))) k =
          alistGet (t.map (fun x => (x, f x))) k := by simp [alistGet, ha]
      rw [hstep, ih]
      have hka : ¬ k = a := fun hcontra => ha hcontra.symm
      by_cases hk : k ∈ t
      · rw [if_pos hk, if_pos (List.mem_cons.mpr (Or.inr hk))]
      · rw [if_neg hk, if_neg (by
          intro hcontra
          rcases List.mem_cons.mp hcontra with hcontra | hcontra
          · exact hka hcontra
          · exact hk hcontra)]

theorem contact_cache_null (oracle : SQLVal → Except String (List Contact))
    (data : List Row) (k : SQLVal)
    (h : k ∉ hpd_contact_calls data ∨ ∃ e, oracle k = Except.error e) :
    (alistGet (contact_cache oracle data) k).getD emptyContactResult = emptyContactResult := by
  unfold contact_cache
  rw [alistGet_map_self]
  by_cases hk : k ∈ hpd_contact_calls data
  · rw [if_pos hk]
    rcases h with h | ⟨e, he⟩
    · exact absurd hk h
    · unfold _fetch_contacts_for_registration
      by_cases ht : truthy k = true
      · rw [if_pos ht, he]
        rfl
      · rw [if_neg ht]
        rfl
  · rw [if_neg hk]
    rfl

theorem coord_cache_null (oracle : SQLVal → Except String (List Row))
    (data : List Row) (k : SQLVal)
    (h : k ∉ hpd_coord_calls data ∨ ∃ e, oracle k = Except.error e) :
    (alistGet (coord_cache oracle data) k).getD (none, none) = (none, none) := by
  unfold coord_cache
  rw [alistGet_map_self]
  by_cases hk : k ∈ hpd_coord_calls data
  · rw [if_pos hk]
    rcases h with h | ⟨e, he⟩
    · exact absurd hk h
    · unfold _fetch_building_coords
      by_cases ht : truthy k = true
      · rw [if_pos ht, he]
        rfl
      · rw [if_neg ht]
        rfl
  · rw [if_neg hk]
    rfl

theorem row_hpd_null_contacts (cc : List (SQLVal × ContactResult))
    (kc : List (SQLVal × (Option ℚ × Option ℚ))) (r : Row)
    (hc : (alistGet cc (rawGet r "registrationid" (SQLVal.text ""))).getD emptyContactResult =
      emptyContactResult) :
    getCol (row_hpd cc kc r) "owner_name" = some SQLVal.null ∧
    getCol (row_hpd cc kc r) "owner_type" = some SQLVal.null ∧
    getCol (row_hpd cc kc r) "head_officer" = some SQLVal.null ∧
    getCol (row_hpd cc kc r) "officer" = some SQLVal.null ∧
    getCol (row_hpd cc kc r) "managing_agent" = some SQLVal.null ∧
    getCol (row_hpd cc kc r) "corporation_name" = some SQLVal.null := by
  unfold row_hpd
  simp only [hc]
  refine ⟨?_, ?_, ?_, ?_, ?_, ?_⟩ <;>
    simp [getCol, emptyContactResult, optStrVal]

theorem row_hpd_null_coords (cc : List (SQLVal × ContactResult))
    (kc : List (SQLVal × (Option ℚ × Option ℚ))) (r : Row)
    (hk : (alistGet kc (rawGet r "buildingid" (SQLVal.text ""))).getD (none, none) =
      (none, none)) :
    getCol (row_hpd cc kc r) "latitude" = some SQLVal.null ∧
    getCol (row_hpd cc kc r) "longitude" = some SQLVal.null := by
  unfold row_hpd
  simp only [hk]
  refine ⟨?_, ?_⟩ <;> simp [getCol, optRatVal]

theorem filterMap_if {α β : Type} (p : α → Bool) (f : α → β) (l : List α) :
    l.filterMap (fun r => if p r then some (f r) else none) = (l.filter p).map f := by
  induction l with
  | nil => rfl
  | cons a t ih =>
    by_cases h : p a = true
    · rw [List.filterMap_cons, List.filter_cons_of_pos h, List.map_cons, if_pos h, ih]
    · rw [List.filterMap_cons, List.filter_cons_of_neg h, if_neg h, ih]

theorem rows_hpd_eq (oracleC : SQLVal → Except String (List Contact))
    (oracleB : SQLVal → Except String (List Row)) (data : List Row) :
    rows_hpd oracleC oracleB data =
      (data.filter (fun r => keyedHpd r)).map
        (row_hpd (contact_cache oracleC data) (coord_cache oracleB data)) := by
  unfold rows_hpd
  exact filterMap_if _ _ data

theorem mem_distinctVals_aux {κ : Type} [DecidableEq κ] (l : List κ) (acc : List κ) (x : κ)
    (hx : x ∈ l.foldl (fun acc v => if v ∈ acc then acc else acc ++ [v]) acc) :
    x ∈ acc ∨ x ∈ l := by
  induction l generalizing acc with
  | nil => exact Or.inl hx
  | cons a t ih =>
    rw [List.foldl_cons] at hx
    by_cases ha : a ∈ acc
    · rw [if_pos ha] at hx
      rcases ih acc hx with h | h
      · exact Or.inl h
      · exact Or.inr (by simp [h])
    · rw [if_neg ha] at hx
      rcases ih (acc ++ [a]) hx with h | h
      · rcases List.mem_append.mp h with h | h
        · exact Or.inl h
        · exact Or.inr (by simp [List.mem_singleton.mp h])
      · exact Or.inr (by simp [h])

theorem mem_distinctVals {κ : Type} [DecidableEq κ] (l : List κ) (x : κ)
    (hx : x ∈ distinctVals l) : x ∈ l := by
  rcases mem_distinctVals_aux l [] x hx with h | h
  · exact absurd h (List.not_mem_nil x)
  · exact h

theorem upsert_many_ok (cc : String) (defaults : Row) (store : List Row) (rows : List Row)
    (h : ∀ r ∈ rows, ∀ r0 ∈ rows, serializeRow r (colNames r0) = some r) :
    ∃ store1, upsert_many cc defaults store rows = Except.ok (rows.length, store1) := by
  cases rows with
  | nil => exact ⟨store, rfl⟩
  | cons r0 rest =>
    have hser : serializeRows (colNames r0) (r0 :: rest) = some (r0 :: rest) :=
      serializeRows_of_all _ _ (fun r hr => h r hr r0 (by simp))
    exact ⟨(r0 :: rest).foldl (upsertOne cc (colNames r0) defaults) store,
      by simp [upsert_many, hser]⟩

theorem serializeRow_row_hpd (cc cc2 : List (SQLVal × ContactResult))
    (kc kc2 : List (SQLVal × (Option ℚ × Option ℚ))) (x y : Row) :
    serializeRow (row_hpd cc kc x) (colNames (row_hpd cc2 kc2 y)) = some (row_hpd cc kc x) := by
  show serializeRow (row_hpd cc kc x)
    ["violation_id", "building_id", "registration_id", "borough", "house_number",
     "street_name", "zip", "apartment", "story", "block", "lot", "class",
     "inspection_date", "approved_date", "nov_description", "nov_issued_date",
     "current_status", "current_status_date", "latitude", "longitude",
     "owner_name", "owner_type", "head_officer", "officer", "managing_agent",
     "corporation_name", "raw_data"] = some (row_hpd cc kc x)
  simp [row_hpd, serializeRow, getCol]

/-- C5: in one HPD violations run with more than 200 distinct registration
ids, exactly 200 distinct ids are looked up, each at most once via the
run-local cache, with zero lookups beyond the cap (the building-id lookup
obeys the same cap); every keyed record whose registration id was not
looked up or whose lookup failed is still turned into a row and persisted,
with every enrichment column NULL rather than raising an error. -/
theorem hpd_enrichment_cap (data : List Row)
    (oracleC : SQLVal → Except String (List Contact))
    (oracleB : SQLVal → Except String (List Row))
    (defaults : Row) (store : List Row)
    (h : 200 < (regKeys data).length) :
    (hpd_contact_calls data).length = 200 ∧
    (hpd_contact_calls data).Nodup ∧
    (∀ k ∈ hpd_contact_calls data, k ∈ regKeys data) ∧
    (hpd_coord_calls data).length ≤ 200 ∧
    (hpd_coord_calls data).Nodup ∧
    (∀ r ∈ data, keyedHpd r = true →
      row_hpd (contact_cache oracleC data) (coord_cache oracleB data) r ∈
        rows_hpd oracleC oracleB data ∧
      ((rawGet r "registrationid" (SQLVal.text "") ∉ hpd_contact_calls data ∨
        (∃ e, oracleC (rawGet r "registrationid" (SQLVal.text "")) = Except.error e)) →
        getCol (row_hpd (contact_cache oracleC data) (coord_cache oracleB data) r) "owner_name" = some SQLVal.null ∧
        getCol (row_hpd (contact_cache oracleC data) (coord_cache oracleB data) r) "owner_type" = some SQLVal.null ∧
        getCol (row_hpd (contact_cache oracleC data) (coord_cache oracleB data) r) "head_officer" = some SQLVal.null ∧
        getCol (row_hpd (contact_cache oracleC data) (coord_cache oracleB data) r) "officer" = some SQLVal.null ∧
        getCol (row_hpd (contact_cache oracleC data) (coord_cache oracleB data) r) "managing_agent" = some SQLVal.null ∧
        getCol (row_hpd (contact_cache oracleC data) (coord_cache oracleB data) r) "corporation_name" = some SQLVal.null) ∧
      ((rawGet r "buildingid" (SQLVal.text "") ∉ hpd_coord_calls data ∨
        (∃ e, oracleB (rawGet r "buildingid" (SQLVal.text "")) = Except.error e)) →
        getCol (row_hpd (contact_cache oracleC data) (coord_cache oracleB data) r) "latitude" = some SQLVal.null ∧
        getCol (row_hpd (contact_cache oracleC data) (coord_cache oracleB data) r) "longitude" = some SQLVal.null)) ∧
    (∃ store1, upsert_many "violation_id" defaults store (rows_hpd oracleC oracleB data) =
      Except.ok ((rows_hpd oracleC oracleB data).length, store1)) := by
  refine ⟨?_, ?_, ?_, ?_, ?_, ?_, ?_⟩
  · rw [hpd_contact_calls, List.length_take]
    omega
  · exact List.Nodup.sublist (List.take_sublist 200 _) (distinctVals_nodup _)
  · intro k hk
    exact List.take_subset 200 _ hk
  · rw [hpd_coord_calls, List.length_take]
    omega
  · exact List.Nodup.sublist (List.take_sublist 200 _) (distinctVals_nodup _)
  · intro r hr hkey
    refine ⟨?_, ?_, ?_⟩
    · rw [rows_hpd_eq]
      exact List.mem_map.mpr ⟨r, List.mem_filter.mpr ⟨hr, hkey⟩, rfl⟩
    · intro hmiss
      exact row_hpd_null_contacts _ _ r (contact_cache_null oracleC data _ hmiss)
    · intro hmiss
      exact row_hpd_null_coords _ _ r (coord_cache_null oracleB data _ hmiss)
  · refine upsert_many_ok "violation_id" defaults store _ (fun r hr r0 hr0 => ?_)
    obtain ⟨x, -, rfl⟩ := List.mem_map.mp (by rw [rows_hpd_eq] at hr; exact hr)
    obtain ⟨y, -, rfl⟩ := List.mem_map.mp (by rw [rows_hpd_eq] at hr0; exact hr0)
    exact serializeRow_row_hpd _ _ _ _ x y

set_option maxRecDepth 10000 in
set_option maxHeartbeats 1000000 in
/-- Closed instance of the enrichment cap: a batch carrying 201 distinct
registration ids issues exactly 200 contact lookups. -/
theorem hpd_enrichment_cap_witness :
    (hpd_contact_calls ((List.range 201).map (fun i =>
      [("violationid", SQLVal.int (Int.ofNat i + 1)),
       ("registrationid", SQLVal.int (Int.ofNat i + 1))]))).length = 200 :=
  (hpd_enrichment_cap ((List.range 201).map (fun i =>
      [("violationid", SQLVal.int (Int.ofNat i + 1)),
       ("registrationid", SQLVal.int (Int.ofNat i + 1))]))
    (fun _ => Except.error "lookup down") (fun _ => Except.error "lookup down")
    [] [] (by decide)).1

theorem names_getCol_isSome (r : Row) (c : String) (hc : c ∈ colNames r) :
    (getCol r c).isSome := by
  induction r with
  | nil => simp [colNames] at hc
  | cons p rest ih =>
    by_cases hp : p.1 = c
    · simp [getCol, hp]
    · rw [show getCol (p :: rest) c = getCol rest c from by simp [getCol, hp]]
      refine ih ?_
      rcases List.mem_cons.mp hc with hcontra | hc2
      · exact absurd hcontra.symm hp
      · exact hc2

theorem getCol_self (r : Row) (p : String × SQLVal) (hp : p ∈ r)
    (hnd : (colNames r).Nodup) : getCol r p.1 = some p.2 := by
  induction r with
  | nil => exact absurd hp (List.not_mem_nil p)
  | cons q rest ih =>
    rcases List.mem_cons.mp hp with rfl | hp2
    · simp [getCol]
    · have hq : q.1 ≠ p.1 := by
        intro hcontra
        have : q.1 ∈ colNames rest :=
          hcontra ▸ List.mem_map.mpr ⟨p, hp2, rfl⟩
        exact (List.nodup_cons.mp hnd).1 this
      rw [show getCol (q :: rest) p.1 = getCol rest p.1 from by simp [getCol, hq]]
      exact ih hp2 (List.nodup_cons.mp hnd).2

theorem getCol_append_left (a b : Row) (c : String) (h : (getCol a c).isSome) :
    getCol (a ++ b) c = getCol a c := by
  induction a with
  | nil => simp [getCol] at h
  | cons p rest ih =>
    by_cases hp : p.1 = c
    · simp [getCol, hp]
    · rw [List.cons_append]
      rw [show getCol (p :: (rest ++ b)) c = getCol (rest ++ b) c from by simp [getCol, hp]]
      rw [show getCol (p :: rest) c = getCol rest c from by simp [getCol, hp]] at h ⊢
      exact ih h

theorem serializeRow_congr (r r2 : Row) (cs : List String)
    (h : ∀ c ∈ cs, getCol r c = getCol r2 c) :
    serializeRow r cs = serializeRow r2 cs := by
  induction cs with
  | nil => rfl
  | cons c rest ih =>
    rw [serializeRow, serializeRow, h c (by simp), ih (fun c2 hc2 => h c2 (by simp [hc2]))]

theorem serializeRow_self (r : Row) (hnd : (colNames r).Nodup) :
    serializeRow r (colNames r) = some r := by
  induction r with
  | nil => rfl
  | cons p rest ih =>
    have hnames : colNames (p :: rest) = p.1 :: colNames rest := rfl
    rw [hnames, serializeRow]
    have hhead : getCol (p :: rest) p.1 = some p.2 := by simp [getCol]
    have htail : serializeRow (p :: rest) (colNames rest) = serializeRow rest (colNames rest) := by
      refine serializeRow_congr _ _ _ (fun c hc => ?_)
      have hne : p.1 ≠ c := by
        intro hcontra
        rw [hnames] at hnd
        exact (List.nodup_cons.mp hnd).1 (hcontra ▸ hc)
      simp [getCol, hne]
    rw [hhead, htail, ih (by rw [hnames] at hnd; exact (List.nodup_cons.mp hnd).2)]

theorem writeColEntry_fst (cols : List String) (cc : String) (x : Row) (p : String × SQLVal) :
    (writeColEntry cols cc x p).1 = p.1 := by
  unfold writeColEntry
  by_cases hc : p.1 ∈ cols ∧ p.1 ≠ cc
  · rw [if_pos hc]
    cases getCol x p.1 <;> rfl
  · rw [if_neg hc]

theorem writeColEntry_absorb (cols : List String) (cc : String) (a b : Row)
    (p : String × SQLVal) (ha : ∀ c ∈ cols, (getCol a c).isSome) :
    writeColEntry cols cc a (writeColEntry cols cc b p) = writeColEntry cols cc a p := by
  by_cases hc : p.1 ∈ cols ∧ p.1 ≠ cc
  · obtain ⟨va, hva⟩ := Option.isSome_iff_exists.mp (ha p.1 hc.1)
    cases hxb : getCol b p.1 with
    | some vb =>
      have hb : writeColEntry cols cc b p = (p.1, vb) := by
        unfold writeColEntry
        rw [if_pos hc, hxb]
      rw [hb]
      unfold writeColEntry
      rw [if_pos hc, if_pos hc, hva]
    | none =>
      have hb : writeColEntry cols cc b p = p := by
        unfold writeColEntry
        rw [if_pos hc, hxb]
      rw [hb]
  · have hb : writeColEntry cols cc b p = p := by
      unfold writeColEntry
      rw [if_neg hc]
    rw [hb]

theorem writeCols_getCol_cc (cols : List String) (cc : String) (x old : Row) :
    getCol (writeCols cols cc x old) cc = getCol old cc := by
  induction old with
  | nil => rfl
  | cons p rest ih =>
    rw [writeCols, List.map_cons]
    rw [getCol, getCol, writeColEntry_fst]
    by_cases hp : p.1 = cc
    · rw [if_pos hp, if_pos hp]
      have : writeColEntry cols cc x p = p := by
        unfold writeColEntry
        rw [if_neg (fun hcontra => hcontra.2 hp)]
      rw [this]
    · rw [if_neg hp, if_neg hp]
      rw [← writeCols]
      exact ih

theorem writeCols_absorb (cols : List String) (cc : String) (a b w : Row)
    (ha : ∀ c ∈ cols, (getCol a c).isSome) :
    writeCols cols cc a (writeCols cols cc b w) = writeCols cols cc a w := by
  unfold writeCols
  rw [List.map_map]
  exact List.map_congr_left (fun p _ => writeColEntry_absorb cols cc a b p ha)

theorem map_eq_self_of_pointwise {α : Type} (l : List α) (f : α → α)
    (h : ∀ a ∈ l, f a = a) : l.map f = l := by
  induction l with
  | nil => rfl
  | cons a t ih =>
    rw [List.map_cons, h a (by simp), ih (fun a2 ha2 => h a2 (by simp [ha2]))]

theorem writeCols_self_append (cols : List String) (cc : String) (sr d : Row)
    (hc : colNames sr = cols) (hnd : cols.Nodup) (hd : ∀ p ∈ d, p.1 ∉ cols) :
    writeCols cols cc sr (sr ++ d) = sr ++ d := by
  unfold writeCols
  rw [List.map_append]
  have hsr : sr.map (writeColEntry cols cc sr) = sr := by
    refine map_eq_self_of_pointwise _ _ (fun p hp => ?_)
    unfold writeColEntry
    by_cases hcond : p.1 ∈ cols ∧ p.1 ≠ cc
    · rw [if_pos hcond, getCol_self sr p hp (hc ▸ hnd)]
    · rw [if_neg hcond]
  have hdl : d.map (writeColEntry cols cc sr) = d := by
    refine map_eq_self_of_pointwise _ _ (fun p hp => ?_)
    unfold writeColEntry
    rw [if_neg (fun hcontra => hd p hp hcontra.1)]
  rw [hsr, hdl]

theorem upsertOne_conflict (cc : String) (cols : List String) (defaults : Row)
    (S : List Row) (sr : Row) (v0 : SQLVal) (hk : getCol sr cc = some v0)
    (hnn : v0 ≠ SQLVal.null)
    (hpres : S.any (fun t => getCol t cc = some v0) = true) :
    upsertOne cc cols defaults S sr =
      S.map (fun t => if getCol t cc = some v0 then writeCols cols cc sr t else t) := by
  simp only [upsertOne, hk, Option.getD_some]
  rw [if_pos ⟨hnn, hpres⟩]

theorem upsertOne_insert (cc : String) (cols : List String) (defaults : Row)
    (S : List Row) (sr : Row) (v0 : SQLVal) (hk : getCol sr cc = some v0)
    (hfail : ¬ (v0 ≠ SQLVal.null ∧ S.any (fun t => getCol t cc = some v0) = true)) :
    upsertOne cc cols defaults S sr = S ++ [insertRow defaults sr] := by
  simp only [upsertOne, hk, Option.getD_some]
  rw [if_neg hfail]

theorem upsertOne_map_key (cc : String) (cols : List String) (sr t : Row) (v0 : SQLVal) :
    getCol (if getCol t cc = some v0 then writeCols cols cc sr t else t) cc = getCol t cc := by
  by_cases hc : getCol t cc = some v0
  · rw [if_pos hc, writeCols_getCol_cc]
  · rw [if_neg hc]

theorem insertRow_getCol (defaults sr : Row) (c : String) (h : (getCol sr c).isSome) :
    getCol (insertRow defaults sr) c = getCol sr c :=
  getCol_append_left sr _ c h

theorem presence_upsertOne (cc : String) (cols : List String) (defaults : Row)
    (S : List Row) (x : Row) (v : SQLVal)
    (h : ∃ t ∈ S, getCol t cc = some v) :
    ∃ t ∈ upsertOne cc cols defaults S x, getCol t cc = some v := by
  obtain ⟨t, ht, htv⟩ := h
  simp only [upsertOne]
  by_cases hcond : ((getCol x cc).getD SQLVal.null ≠ SQLVal.null ∧
      S.any (fun t => getCol t cc = some ((getCol x cc).getD SQLVal.null)) = true)
  · rw [if_pos hcond]
    refine ⟨_, List.mem_map.mpr ⟨t, ht, rfl⟩, ?_⟩
    rw [upsertOne_map_key]
    exact htv
  · rw [if_neg hcond]
    exact ⟨t, List.mem_append_left _ ht, htv⟩

theorem presence_upsertOne_self (cc : String) (cols : List String) (defaults : Row)
    (S : List Row) (x : Row) (v0 : SQLVal)
    (hk : getCol x cc = some v0) (hnn : v0 ≠ SQLVal.null) :
    ∃ t ∈ upsertOne cc cols defaults S x, getCol t cc = some v0 := by
  by_cases hpres : S.any (fun t => getCol t cc = some v0) = true
  · rw [upsertOne_conflict cc cols defaults S x v0 hk hnn hpres]
    obtain ⟨t, ht, htv⟩ := List.any_eq_true.mp hpres
    have htv2 : getCol t cc = some v0 := by simpa using htv
    refine ⟨_, List.mem_map.mpr ⟨t, ht, rfl⟩, ?_⟩
    rw [upsertOne_map_key]
    exact htv2
  · rw [upsertOne_insert cc cols defaults S x v0 hk (fun hcontra => hpres hcontra.2)]
    refine ⟨insertRow defaults x, List.mem_append_right _ (by simp), ?_⟩
    rw [insertRow_getCol defaults x cc (by rw [hk]; rfl)]
    exact hk

theorem presence_fold (cc : String) (cols : List String) (defaults : Row)
    (xs : List Row) (S : List Row) (v : SQLVal)
    (h : ∃ t ∈ S, getCol t cc = some v) :
    ∃ t ∈ xs.foldl (upsertOne cc cols defaults) S, getCol t cc = some v := by
  induction xs generalizing S with
  | nil => exact h
  | cons x rest ih =>
    rw [List.foldl_cons]
    exact ih _ (presence_upsertOne cc cols defaults S x v h)

theorem presence_fold_of_mem (cc : String) (cols : List String) (defaults : Row)
    (xs : List Row) (S : List Row) (x : Row) (v : SQLVal)
    (hx : x ∈ xs) (hxv : getCol x cc = some v) (hnn : v ≠ SQLVal.null) :
    ∃ t ∈ xs.foldl (upsertOne cc cols defaults) S, getCol t cc = some v := by
  induction xs generalizing S with
  | nil => exact absurd hx (List.not_mem_nil x)
  | cons x0 rest ih =>
    rw [List.foldl_cons]
    rcases List.mem_cons.mp hx with rfl | hx2
    · exact presence_fold cc cols defaults rest _ v
        (presence_upsertOne_self cc cols defaults S x v hxv hnn)
    · exact ih _ hx2

theorem countKey_upsertOne_le (cc : String) (cols : List String) (defaults : Row)
    (S : List Row) (x : Row) (v0 v : SQLVal)
    (hk : getCol x cc = some v0) (hnn : v0 ≠ SQLVal.null)
    (hv : countKey cc S v ≤ 1) :
    countKey cc (upsertOne cc cols defaults S x) v ≤ 1 := by
  by_cases hpres : S.any (fun t => getCol t cc = some v0) = true
  · rw [upsertOne_conflict cc cols defaults S x v0 hk hnn hpres]
    rw [countKey, List.countP_map]
    have : List.countP ((fun t => decide (getCol t cc = some v)) ∘
        (fun t => if getCol t cc = some v0 then writeCols cols cc x t else t)) S =
        List.countP (fun t => decide (getCol t cc = some v)) S := by
      refine List.countP_congr (fun t _ => ?_)
      simp only [Function.comp, decide_eq_true_eq]
      rw [upsertOne_map_key]
    rw [this]
    exact hv
  · rw [upsertOne_insert cc cols defaults S x v0 hk (fun hcontra => hpres hcontra.2)]
    rw [countKey, List.countP_append]
    have hins : getCol (insertRow defaults x) cc = some v0 := by
      rw [insertRow_getCol defaults x cc (by rw [hk]; rfl)]
      exact hk
    by_cases hvv : v0 = v
    · subst hvv
      have hzero : List.countP (fun t => decide (getCol t cc = some v0)) S = 0 := by
        rw [List.countP_eq_zero]
        intro t ht
        simp only [decide_eq_true_eq]
        intro hcontra
        exact hpres (List.any_eq_true.mpr ⟨t, ht, by simpa using hcontra⟩)
      rw [hzero]
      simp [List.countP_cons, hins]
    · have hone : List.countP (fun t => decide (getCol t cc = some v)) [insertRow defaults x] = 0 := by
        simp [List.countP_cons, hins, hvv]
      rw [hone]
      simp only [countKey] at hv
      omega

theorem countKey_fold_le (cc : String) (cols : List String) (defaults : Row)
    (xs : List Row) (S : List Row) (v : SQLVal)
    (hkeys : ∀ x ∈ xs, ∃ v2, getCol x cc = some v2 ∧ v2 ≠ SQLVal.null)
    (hv : countKey cc S v ≤ 1) :
    countKey cc (xs.foldl (upsertOne cc cols defaults) S) v ≤ 1 := by
  induction xs generalizing S with
  | nil => exact hv
  | cons x rest ih =>
    rw [List.foldl_cons]
    obtain ⟨v0, hk, hnn⟩ := hkeys x (by simp)
    exact ih _ (fun x2 hx2 => hkeys x2 (by simp [hx2]))
      (countKey_upsertOne_le cc cols defaults S x v0 v hk hnn hv)

theorem lastKeyed_mem (cc : String) (v : SQLVal) (xs : List Row) (lx : Row)
    (h : lastKeyed cc v xs = some lx) : lx ∈ xs := by
  unfold lastKeyed at h
  have := List.mem_of_mem_getLast? h
  exact List.mem_of_mem_filter this

theorem lastKeyed_concat_self (cc : String) (v : SQLVal) (xs : List Row) (x : Row)
    (hk : getCol x cc = some v) : lastKeyed cc v (xs ++ [x]) = some x := by
  unfold lastKeyed
  rw [List.filter_append]
  have hfx : List.filter (fun r => decide (getCol r cc = some v)) [x] = [x] := by
    simp [hk]
  rw [hfx]
  exact List.getLast?_concat _

theorem lastKeyed_concat_other (cc : String) (v : SQLVal) (xs : List Row) (x : Row)
    (hk : ¬ getCol x cc = some v) : lastKeyed cc v (xs ++ [x]) = lastKeyed cc v xs := by
  unfold lastKeyed
  rw [List.filter_append]
  have hfx : List.filter (fun r => decide (getCol r cc = some v)) [x] = [] := by
    simp [hk]
  rw [hfx, List.append_nil]

theorem fold_fix (cc : String) (cols : List String) (defaults : Row) (S : List Row)
    (xs : List Row)
    (hkeys : ∀ x ∈ xs, ∃ v, getCol x cc = some v ∧ v ≠ SQLVal.null)
    (hxnames : ∀ x ∈ xs, colNames x = cols)
    (hnd : cols.Nodup) :
    ∀ w ∈ xs.foldl (upsertOne cc cols defaults) S, ∀ v, getCol w cc = some v →
      (∃ x ∈ xs, getCol x cc = some v) →
      ∃ lx, lastKeyed cc v xs = some lx ∧ writeCols cols cc lx w = w := by
  induction xs using List.reverseRecOn with
  | nil =>
    rintro w hw v hv ⟨x, hx, -⟩
    exact absurd hx (List.not_mem_nil x)
  | append_singleton xs x ih =>
    intro w hw v hv hex
    rw [List.foldl_append, List.foldl_cons, List.foldl_nil] at hw
    obtain ⟨v0, hk0, hnn0⟩ := hkeys x (by simp)
    have hkeys2 : ∀ x2 ∈ xs, ∃ v2, getCol x2 cc = some v2 ∧ v2 ≠ SQLVal.null :=
      fun x2 hx2 => hkeys x2 (by simp [hx2])
    have hxnames2 : ∀ x2 ∈ xs, colNames x2 = cols :=
      fun x2 hx2 => hxnames x2 (by simp [hx2])
    have hfullx : ∀ c ∈ cols, (getCol x c).isSome :=
      fun c hc => names_getCol_isSome x c ((hxnames x (by simp)) ▸ hc)
    by_cases hpres : (xs.foldl (upsertOne cc cols defaults) S).any
        (fun t => getCol t cc = some v0) = true
    · rw [upsertOne_conflict cc cols defaults _ x v0 hk0 hnn0 hpres] at hw
      obtain ⟨u, hu, hut⟩ := List.mem_map.mp hw
      by_cases huv : getCol u cc = some v0
      · rw [if_pos huv] at hut
        have hkeyw : getCol w cc = some v0 := by
          rw [← hut, writeCols_getCol_cc]
          exact huv
        have hvv0 : v = v0 := by
          rw [hv] at hkeyw
          exact Option.some_inj.mp hkeyw
        subst hvv0
        refine ⟨x, lastKeyed_concat_self cc v xs x hk0, ?_⟩
        rw [← hut]
        exact writeCols_absorb cols cc x x u hfullx
      · rw [if_neg huv] at hut
        subst hut
        obtain ⟨x2, hx2, hx2v⟩ := hex
        have hvne : v ≠ v0 := by
          intro hcontra
          subst hcontra
          exact huv hv
        rcases List.mem_append.mp hx2 with hx2 | hx2
        · obtain ⟨lx, hl1, hl2⟩ := ih hkeys2 hxnames2 u hu v hv ⟨x2, hx2, hx2v⟩
          refine ⟨lx, ?_, hl2⟩
          rw [lastKeyed_concat_other cc v xs x
            (fun hcontra => hvne (by rw [hk0] at hcontra; exact (Option.some_inj.mp hcontra).symm))]
          exact hl1
        · rw [List.mem_singleton] at hx2
          subst hx2
          exfalso
          rw [hk0] at hx2v
          exact hvne (Option.some_inj.mp hx2v).symm
    · rw [upsertOne_insert cc cols defaults _ x v0 hk0 (fun hc => hpres hc.2)] at hw
      rcases List.mem_append.mp hw with hw | hw
      · obtain ⟨x2, hx2, hx2v⟩ := hex
        have hvne : v ≠ v0 := by
          intro hcontra
          subst hcontra
          exact hpres (List.any_eq_true.mpr ⟨w, hw, by simpa using hv⟩)
        rcases List.mem_append.mp hx2 with hx2 | hx2
        · obtain ⟨lx, hl1, hl2⟩ := ih hkeys2 hxnames2 w hw v hv ⟨x2, hx2, hx2v⟩
          refine ⟨lx, ?_, hl2⟩
          rw [lastKeyed_concat_other cc v xs x
            (fun hcontra => hvne (by rw [hk0] at hcontra; exact (Option.some_inj.mp hcontra).symm))]
          exact hl1
        · rw [List.mem_singleton] at hx2
          subst hx2
          exfalso
          rw [hk0] at hx2v
          exact hvne (Option.some_inj.mp hx2v).symm
      · rw [List.mem_singleton] at hw
        subst hw
        have hkw : getCol (insertRow defaults x) cc = some v0 := by
          rw [insertRow_getCol defaults x cc (by rw [hk0]; rfl)]
          exact hk0
        have hvv0 : v = v0 := by
          rw [hv] at hkw
          exact Option.some_inj.mp hkw
        subst hvv0
        refine ⟨x, lastKeyed_concat_self cc v xs x hk0, ?_⟩
        unfold insertRow
        refine writeCols_self_append cols cc x _ (hxnames x (by simp)) hnd ?_
        intro p hp
        have := (List.mem_filter.mp hp).2
        intro hcontra
        rw [← hxnames x (by simp)] at hcontra
        simp only [decide_eq_true_eq] at this
        exact this (List.elem_iff.mpr hcontra)

theorem upsertRel_step (cc : String) (cols : List String) (xs : List Row)
    (x w t : Row) (v0 : SQLVal) (hk0 : getCol x cc = some v0)
    (hfullall : ∀ y ∈ x :: xs, ∀ c ∈ cols, (getCol y c).isSome)
    (hrel : upsertRel cc cols (x :: xs) w t) :
    upsertRel cc cols xs (if getCol w cc = some v0 then writeCols cols cc x w else w) t := by
  have hkeq : getCol (if getCol w cc = some v0 then writeCols cols cc x w else w) cc =
      getCol w cc := upsertOne_map_key cc cols x w v0
  constructor
  · intro v hv
    rw [hkeq] at hv
    constructor
    · rintro ⟨x2, hx2, hx2v⟩
      by_cases hvv : v = v0
      · subst hvv
        have hτ : (if getCol w cc = some v then writeCols cols cc x w else w) =
            writeCols cols cc x w := if_pos hv
        obtain ⟨lx, hl1, hl2⟩ := (hrel.1 v hv).1 ⟨x, List.mem_cons_self x xs, hk0⟩
        have hfiltx : List.filter (fun r => decide (getCol r cc = some v)) [x] = [x] := by
          simp [hk0]
        have hlx : lastKeyed cc v xs = some lx := by
          unfold lastKeyed at hl1 ⊢
          rw [show x :: xs = [x] ++ xs from rfl, List.filter_append, hfiltx] at hl1
          cases hfx : List.filter (fun r => decide (getCol r cc = some v)) xs with
          | nil =>
            exfalso
            have : x2 ∈ List.filter (fun r => decide (getCol r cc = some v)) xs :=
              List.mem_filter.mpr ⟨hx2, by simpa using hx2v⟩
            rw [hfx] at this
            exact List.not_mem_nil x2 this
          | cons b l2 =>
            rw [hfx] at hl1
            rw [List.singleton_append] at hl1
            rw [List.getLast?_cons_cons] at hl1
            exact hl1
        have hfulllx : ∀ c ∈ cols, (getCol lx c).isSome :=
          hfullall lx (lastKeyed_mem cc v (x :: xs) lx hl1)
        refine ⟨lx, hlx, ?_⟩
        rw [hτ, writeCols_absorb cols cc lx x w hfulllx]
        exact hl2
      · have hτ : (if getCol w cc = some v0 then writeCols cols cc x w else w) = w :=
          if_neg (fun hcontra => hvv (by rw [hv] at hcontra; exact Option.some_inj.mp hcontra))
        obtain ⟨lx, hl1, hl2⟩ := (hrel.1 v hv).1 ⟨x2, List.mem_cons_of_mem x hx2, hx2v⟩
        have hlx : lastKeyed cc v xs = some lx := by
          unfold lastKeyed at hl1 ⊢
          rw [List.filter_cons_of_neg (by
            simp only [decide_eq_true_eq]
            intro hcontra
            rw [hk0] at hcontra
            exact hvv (Option.some_inj.mp hcontra).symm)] at hl1
          exact hl1
        refine ⟨lx, hlx, ?_⟩
        rw [hτ]
        exact hl2
    · intro hnex
      by_cases hvv : v = v0
      · subst hvv
        have hτ : (if getCol w cc = some v then writeCols cols cc x w else w) =
            writeCols cols cc x w := if_pos hv
        obtain ⟨lx, hl1, hl2⟩ := (hrel.1 v hv).1 ⟨x, List.mem_cons_self x xs, hk0⟩
        have hfxs : List.filter (fun r => decide (getCol r cc = some v)) xs = [] := by
          rw [List.filter_eq_nil_iff]
          intro x2 hx2
          simp only [decide_eq_true_eq]
          exact fun hcontra => hnex ⟨x2, hx2, hcontra⟩
        have hlxx : lx = x := by
          unfold lastKeyed at hl1
          rw [List.filter_cons_of_pos (by simp [hk0]), hfxs] at hl1
          exact (Option.some_inj.mp hl1).symm
        rw [hτ, ← hlxx]
        exact hl2
      · have hτ : (if getCol w cc = some v0 then writeCols cols cc x w else w) = w :=
          if_neg (fun hcontra => hvv (by rw [hv] at hcontra; exact Option.some_inj.mp hcontra))
        rw [hτ]
        refine (hrel.1 v hv).2 ?_
        rintro ⟨x2, hx2, hx2v⟩
        rcases List.mem_cons.mp hx2 with rfl | hx2
        · rw [hk0] at hx2v
          exact hvv (Option.some_inj.mp hx2v).symm
        · exact hnex ⟨x2, hx2, hx2v⟩
  · intro hnone
    rw [hkeq] at hnone
    have hτ : (if getCol w cc = some v0 then writeCols cols cc x w else w) = w :=
      if_neg (fun hcontra => by rw [hnone] at hcontra; exact Option.noConfusion hcontra)
    rw [hτ]
    exact hrel.2 hnone

theorem forall2_eq_of_rel_nil (cc : String) (cols : List String) (Tp T : List Row)
    (h : List.Forall₂ (upsertRel cc cols []) Tp T) : Tp = T := by
  induction h with
  | nil => rfl
  | @cons a b l1 l2 hab htl ih =>
    have hw : a = b := by
      cases hk : getCol a cc with
      | some v =>
        refine (hab.1 v hk).2 ?_
        rintro ⟨x, hx, -⟩
        exact List.not_mem_nil x hx
      | none => exact hab.2 hk
    rw [hw, ih]

theorem forall2_map_left_imp {R R2 : Row → Row → Prop} (f : Row → Row)
    (l1 l2 : List Row) (h : List.Forall₂ R l1 l2)
    (himp : ∀ a b, R a b → R2 (f a) b) :
    List.Forall₂ R2 (l1.map f) l2 := by
  induction h with
  | nil => exact List.Forall₂.nil
  | @cons a b t1 t2 hab htl ih =>
    rw [List.map_cons]
    exact List.Forall₂.cons (himp a b hab) ih

theorem forall2_refl_of {R : Row → Row → Prop} (l : List Row) (h : ∀ a ∈ l, R a a) :
    List.Forall₂ R l l := by
  induction l with
  | nil => exact List.Forall₂.nil
  | cons a t ih =>
    exact List.Forall₂.cons (h a (by simp)) (ih (fun a2 ha2 => h a2 (by simp [ha2])))

theorem fold_rel (cc : String) (cols : List String) (defaults : Row) (xs : List Row)
    (hkeys : ∀ x ∈ xs, ∃ v, getCol x cc = some v ∧ v ≠ SQLVal.null)
    (hfullall : ∀ y ∈ xs, ∀ c ∈ cols, (getCol y c).isSome) :
    ∀ Tp T, (∀ x ∈ xs, ∀ v, getCol x cc = some v → ∃ t ∈ Tp, getCol t cc = some v) →
      List.Forall₂ (upsertRel cc cols xs) Tp T →
      xs.foldl (upsertOne cc cols defaults) Tp = T := by
  induction xs with
  | nil =>
    intro Tp T hpres hrel
    exact forall2_eq_of_rel_nil cc cols Tp T hrel
  | cons x xs ih =>
    intro Tp T hpres hrel
    rw [List.foldl_cons]
    obtain ⟨v0, hk0, hnn0⟩ := hkeys x (by simp)
    obtain ⟨t0, ht0, ht0v⟩ := hpres x (by simp) v0 hk0
    have hany : Tp.any (fun t => getCol t cc = some v0) = true :=
      List.any_eq_true.mpr ⟨t0, ht0, by simpa using ht0v⟩
    rw [upsertOne_conflict cc cols defaults Tp x v0 hk0 hnn0 hany]
    refine ih (fun y hy => hkeys y (by simp [hy])) (fun y hy => hfullall y (by simp [hy]))
      _ T ?_ ?_
    · intro x2 hx2 v2 hv2
      obtain ⟨t, ht, htv⟩ := hpres x2 (by simp [hx2]) v2 hv2
      refine ⟨_, List.mem_map.mpr ⟨t, ht, rfl⟩, ?_⟩
      rw [upsertOne_map_key]
      exact htv
    · exact forall2_map_left_imp _ Tp T hrel
        (fun a b hab => upsertRel_step cc cols xs x a b v0 hk0 hfullall hab)

theorem fold_idem (cc : String) (cols : List String) (d1 d2 : Row) (xs S : List Row)
    (hkeys : ∀ x ∈ xs, ∃ v, getCol x cc = some v ∧ v ≠ SQLVal.null)
    (hxnames : ∀ x ∈ xs, colNames x = cols)
    (hnd : cols.Nodup) :
    xs.foldl (upsertOne cc cols d2) (xs.foldl (upsertOne cc cols d1) S) =
      xs.foldl (upsertOne cc cols d1) S := by
  have hfullall : ∀ y ∈ xs, ∀ c ∈ cols, (getCol y c).isSome :=
    fun y hy c hc => names_getCol_isSome y c ((hxnames y hy) ▸ hc)
  refine fold_rel cc cols d2 xs hkeys hfullall _ _ ?_ ?_
  · intro x hx v hv
    obtain ⟨v2, hk2, hnn2⟩ := hkeys x hx
    have hveq : v2 = v := by
      rw [hv] at hk2
      exact (Option.some_inj.mp hk2).symm
    subst hveq
    exact presence_fold_of_mem cc cols d1 xs S x v2 hx hv hnn2
  · refine forall2_refl_of _ (fun w hw => ?_)
    constructor
    · intro v hv
      exact ⟨fold_fix cc cols d1 S xs hkeys hxnames hnd w hw v hv, fun _ => rfl⟩
    · intro _
      rfl

/-- C1: for every conflict column, table state and batch of well-formed
keyed rows, running upsert_many twice with the identical batch leaves the
store exactly as after the first run, whatever the insert-time defaults of
either run: the second run updates every conflicting row in place to the
same values and inserts nothing, so no duplicate rows appear (uniqueness
of non-NULL key values is preserved) and all column values are identical
after the first and the second call. -/
theorem upsert_many_idempotent (cc : String) (d1 d2 : Row) (store rows : List Row)
    (hnames : ∀ r ∈ rows, (colNames r).Nodup)
    (huni : ∀ r ∈ rows, ∀ r0 ∈ rows, colNames r = colNames r0)
    (hkey : ∀ r ∈ rows, ∃ v, getCol r cc = some v ∧ v ≠ SQLVal.null) :
    ∃ store1, upsert_many cc d1 store rows = Except.ok (rows.length, store1) ∧
      upsert_many cc d2 store1 rows = Except.ok (rows.length, store1) ∧
      (∀ v, v ≠ SQLVal.null → countKey cc store v ≤ 1 → countKey cc store1 v ≤ 1) := by
  cases rows with
  | nil =>
    exact ⟨store, rfl, rfl, fun v _ hv => hv⟩
  | cons r0 rest =>
    have hser : serializeRows (colNames r0) (r0 :: rest) = some (r0 :: rest) := by
      refine serializeRows_of_all (colNames r0) _ (fun r hr => ?_)
      rw [← huni r hr r0 (by simp)]
      exact serializeRow_self r (hnames r hr)
    have hxnames : ∀ r ∈ r0 :: rest, colNames r = colNames r0 :=
      fun r hr => huni r hr r0 (by simp)
    have hnd : (colNames r0).Nodup := hnames r0 (by simp)
    refine ⟨(r0 :: rest).foldl (upsertOne cc (colNames r0) d1) store, ?_, ?_, ?_⟩
    · simp [upsert_many, hser]
    · have hidem := fold_idem cc (colNames r0) d1 d2 (r0 :: rest) store hkey hxnames hnd
      simp only [upsert_many, hser]
      rw [hidem]
    · intro v hvn hvc
      exact countKey_fold_le cc (colNames r0) d1 (r0 :: rest) store v hkey hvc

/-- Closed instance of upsert idempotence: a two-row batch with distinct
text keys replayed against an initially empty store, with a different
fetched_at default on the second call. -/
theorem upsert_many_idempotent_witness :
    ∃ store1,
      upsert_many "id" [("fetched_at", SQLVal.text "t1")] []
        [[("id", SQLVal.text "a"), ("x", SQLVal.int 1)],
         [("id", SQLVal.text "b"), ("x", SQLVal.int 2)]] = Except.ok (2, store1) ∧
      upsert_many "id" [("fetched_at", SQLVal.text "t2")] store1
        [[("id", SQLVal.text "a"), ("x", SQLVal.int 1)],
         [("id", SQLVal.text "b"), ("x", SQLVal.int 2)]] = Except.ok (2, store1) ∧
      (∀ v, v ≠ SQLVal.null → countKey "id" [] v ≤ 1 → countKey "id" store1 v ≤ 1) :=
  upsert_many_idempotent "id" [("fetched_at", SQLVal.text "t1")] [("fetched_at", SQLVal.text "t2")]
    []
    [[("id", SQLVal.text "a"), ("x", SQLVal.int 1)],
     [("id", SQLVal.text "b"), ("x", SQLVal.int 2)]]
    (by decide) (by decide)
    (by
      intro r hr
      rcases List.mem_cons.mp hr with rfl | hr2
      · exact ⟨SQLVal.text "a", rfl, by decide⟩
      · rcases List.mem_cons.mp hr2 with rfl | hr3
        · exact ⟨SQLVal.text "b", rfl, by decide⟩
        · exact absurd hr3 (List.not_mem_nil r))

end D2
